import Mathlib

/-!
Verification of the token-engine core of `chess-evolutionary-algo`
(`packages/engine/src/index.ts` and its helpers) against its
natural-language specification.

Modelling conventions:
* JavaScript numbers are modelled by `JsNum`: a finite rational together
  with the three IEEE-754 special values `NaN`, `Infinity`, `-Infinity`.
  All values the development evaluates are integers or exact small
  rationals, where double arithmetic is exact; the two genuinely
  rounding operations (`Math.sqrt` on positive non-squares and
  `Math.pow`) are abstracted as opaque fields of `JsMath`, quantified
  over in every theorem that could meet them.  `Math.sqrt` on a negative
  argument is `NaN` by the ECMAScript specification and is modelled
  exactly.
* The chess library (`chess.js`) is an external collaborator; it is
  modelled by an abstract `ChessApi` record of the operations the engine
  calls, over an abstract board type with value semantics.  `snapshot`
  models `new Chess(board.fen())`.
* Stateful TypeScript (in-place mutation of `instance.memory` by `write`
  tokens, the shared `outputs` object of a turn, accumulation into
  fitness scores guarded by `hasCancelled`) is modelled by explicit
  state passing that follows the source's aliasing: one `Outputs` value
  is threaded through the whole move loop of a turn, and the memory a
  recursive search step mutates is returned to its caller.
* Exceptions (`throw`, `TypeError` on a failed `memory.find`) are
  modelled by `Except`.
* Randomness (`lodash/random`, `Math.random`, the Box-Muller helper) is
  modelled by oracle streams of drawn decisions; theorems quantify over
  the streams.
-/

namespace ChessEvo

/-- Modelled JavaScript number: a finite (exact) rational or one of the
IEEE-754 special values. -/
inductive JsNum where
  | num (q : ℚ)
  | nan
  | posInf
  | negInf
deriving DecidableEq

namespace JsNum

/-- Truncation toward zero, as used by the JS `%` remainder. -/
def jsTrunc (q : ℚ) : ℚ := if 0 ≤ q then (⌊q⌋ : ℚ) else (⌈q⌉ : ℚ)

/-- JS `+` on numbers. -/
def jsAdd : JsNum → JsNum → JsNum
  | num a, num b => num (a + b)
  | num _, posInf => posInf
  | num _, negInf => negInf
  | posInf, num _ => posInf
  | negInf, num _ => negInf
  | posInf, posInf => posInf
  | negInf, negInf => negInf
  | _, _ => nan

/-- JS `-` on numbers. -/
def jsSub : JsNum → JsNum → JsNum
  | num a, num b => num (a - b)
  | num _, posInf => negInf
  | num _, negInf => posInf
  | posInf, num _ => posInf
  | negInf, num _ => negInf
  | posInf, negInf => posInf
  | negInf, posInf => negInf
  | _, _ => nan

/-- JS `*` on numbers. -/
def jsMul : JsNum → JsNum → JsNum
  | num a, num b => num (a * b)
  | num a, posInf => if a = 0 then nan else if 0 < a then posInf else negInf
  | num a, negInf => if a = 0 then nan else if 0 < a then negInf else posInf
  | posInf, num b => if b = 0 then nan else if 0 < b then posInf else negInf
  | negInf, num b => if b = 0 then nan else if 0 < b then negInf else posInf
  | posInf, posInf => posInf
  | posInf, negInf => negInf
  | negInf, posInf => negInf
  | negInf, negInf => posInf
  | _, _ => nan

/-- JS `/` on numbers.  Division of a nonzero finite number by zero
yields a signed infinity, `0 / 0` yields `NaN`. -/
def jsDiv : JsNum → JsNum → JsNum
  | num a, num b =>
      if b = 0 then (if a = 0 then nan else if 0 < a then posInf else negInf)
      else num (a / b)
  | num _, posInf => num 0
  | num _, negInf => num 0
  | posInf, num b => if 0 ≤ b then posInf else negInf
  | negInf, num b => if 0 ≤ b then negInf else posInf
  | _, _ => nan

/-- JS `%` on numbers: truncated remainder; any finite value mod zero is
`NaN`, a finite value mod an infinity is the value itself. -/
def jsMod : JsNum → JsNum → JsNum
  | num a, num b => if b = 0 then nan else num (a - b * jsTrunc (a / b))
  | num a, posInf => num a
  | num a, negInf => num a
  | _, _ => nan

/-- The engine's `EngineUtils.binary` applied to a number:
`value >= 1 ? 1 : 0` (so `NaN` and `-Infinity` give `0`). -/
def jsBinary : JsNum → JsNum
  | num a => if 1 ≤ a then num 1 else num 0
  | posInf => num 1
  | _ => num 0

/-- The engine's `EngineUtils.binary` applied to a boolean. -/
def ofBool (b : Bool) : JsNum := if b then num 1 else num 0

/-- JS `<` (false whenever an operand is `NaN`). -/
def jsLtb : JsNum → JsNum → Bool
  | num a, num b => decide (a < b)
  | num _, posInf => true
  | negInf, num _ => true
  | negInf, posInf => true
  | _, _ => false

/-- JS `<=` (false whenever an operand is `NaN`). -/
def jsLeb : JsNum → JsNum → Bool
  | num a, num b => decide (a ≤ b)
  | num _, posInf => true
  | negInf, num _ => true
  | negInf, posInf => true
  | posInf, posInf => true
  | negInf, negInf => true
  | _, _ => false

/-- JS `>`; `a > b` is `b < a`. -/
def jsGtb (a b : JsNum) : Bool := jsLtb b a

/-- JS `>=`; `a >= b` is `b <= a`. -/
def jsGeb (a b : JsNum) : Bool := jsLeb b a

/-- JS `===` on numbers (`NaN === NaN` is false). -/
def jsEqb : JsNum → JsNum → Bool
  | num a, num b => decide (a = b)
  | posInf, posInf => true
  | negInf, negInf => true
  | _, _ => false

/-- JS `Math.round` (half-up, exact on rationals). -/
def jsRound : JsNum → JsNum
  | num a => num (⌊a + 1 / 2⌋ : ℤ)
  | nan => nan
  | posInf => posInf
  | negInf => negInf

/-- JS `Math.floor`. -/
def jsFloor : JsNum → JsNum
  | num a => num (⌊a⌋ : ℤ)
  | nan => nan
  | posInf => posInf
  | negInf => negInf

/-- JS `Math.ceil`. -/
def jsCeil : JsNum → JsNum
  | num a => num (⌈a⌉ : ℤ)
  | nan => nan
  | posInf => posInf
  | negInf => negInf

/-- JS `Math.abs`. -/
def jsAbs : JsNum → JsNum
  | num a => num |a|
  | nan => nan
  | _ => posInf

/-- Binary minimum, as folded by `Math.min(...)`: `NaN` is absorbing. -/
def jsMin2 : JsNum → JsNum → JsNum
  | num a, num b => num (min a b)
  | num a, posInf => num a
  | posInf, num b => num b
  | negInf, num _ => negInf
  | num _, negInf => negInf
  | posInf, posInf => posInf
  | negInf, posInf => negInf
  | posInf, negInf => negInf
  | negInf, negInf => negInf
  | _, _ => nan

/-- Binary maximum, as folded by `Math.max(...)`: `NaN` is absorbing. -/
def jsMax2 : JsNum → JsNum → JsNum
  | num a, num b => num (max a b)
  | num a, negInf => num a
  | negInf, num b => num b
  | posInf, num _ => posInf
  | num _, posInf => posInf
  | posInf, posInf => posInf
  | negInf, posInf => posInf
  | posInf, negInf => posInf
  | negInf, negInf => negInf
  | _, _ => nan

end JsNum

/-- The two JS math builtins whose results are rounded doubles are kept
opaque: `Math.sqrt` on a nonnegative argument, and `Math.pow`.  No
theorem below depends on their values. -/
structure JsMath where
  sqrtNonneg : ℚ → ℚ
  pow : JsNum → JsNum → JsNum

/-- JS `Math.sqrt`: `NaN` on any negative argument (ECMAScript
specification), opaque rounded value on nonnegative finite arguments. -/
def JsMath.jsSqrt (jm : JsMath) : JsNum → JsNum
  | .num q => if q < 0 then .nan else .num (jm.sqrtNonneg q)
  | .nan => .nan
  | .posInf => .posInf
  | .negInf => .nan

/-- Provided (non-custom) variable ids, as listed in `constants.ts`. -/
inductive ProvidedId where
  | isSelf | isOpponent | isEmpty
  | isPawn | isKnight | isBishop | isRook | isQueen | isKing
  | isInCheck | isInCheckmate | isDraw
  | castledKingSide | castledQueenSide
  | wasCaptured | pawnWasCaptured | knightWasCaptured
  | bishopWasCaptured | rookWasCaptured | queenWasCaptured
  | possibleMoves
  | canCapture | canCapturePawn | canCaptureKnight
  | canCaptureBishop | canCaptureRook | canCaptureQueen
  | canMoveHere | pawnCanMoveHere | knightCanMoveHere
  | bishopCanMoveHere | rookCanMoveHere | queenCanMoveHere | kingCanMoveHere
  | depth
  | firstIterationPreMoveTotal | firstIterationPostMoveTotal
  | prevIterationPreMoveTotal | prevIterationPostMoveTotal
  | thisIterationPreMoveTotal | thisIterationPostMoveTotal
deriving DecidableEq

/-- A variable id: a provided id or a memory cell id `custom_n`. -/
inductive VariableId where
  | provided (p : ProvidedId)
  | custom (n : Nat)
deriving DecidableEq

/-- Function token ids, in the order of `FUNCTION_TOKEN_IDS`. -/
inductive FunctionId where
  | add | sub | mul | div | sqrt | mod | pow | round | floor | ceil
  | min | max | abs | eq | neq | gt | gte | lt | lte
  | binary | invert | and | or | ifElse | write
deriving DecidableEq

/-- Expression-tree node (`EngineTypes.Token`), mirroring the tagged
union of `types.ts`: a variable leaf or a function node with
shape-specific children. -/
inductive Token where
  | var (id : VariableId)
  | add (a b : Token)
  | sub (a b : Token)
  | mul (a b : Token)
  | div (a b : Token)
  | mod (a b : Token)
  | and (a b : Token)
  | or (a b : Token)
  | eq (a b : Token)
  | neq (a b : Token)
  | binary (value : Token)
  | invert (value : Token)
  | sqrt (value : Token)
  | round (value : Token)
  | floor (value : Token)
  | ceil (value : Token)
  | abs (value : Token)
  | gt (left right : Token)
  | gte (left right : Token)
  | lt (left right : Token)
  | lte (left right : Token)
  | min (args : List Token)
  | max (args : List Token)
  | pow (base power : Token)
  | ifElse (condition thenT elseT : Token)
  | write (memoryIndex : Nat) (value : Token)

/-- Board square: file (a..h) and rank (1..8). -/
abbrev Square := Fin 8 × Fin 8

/-- The canonical square `a1` the movement program is evaluated at. -/
def squareA1 : Square := (0, 0)

/-- The fixed square order of `EngineUtils.loopBoard`: files a..h outer,
ranks 1..8 inner. -/
def allSquares : List Square :=
  (List.finRange 8).flatMap fun r => (List.finRange 8).map fun c => (r, c)

/-- Piece colors (`'w' | 'b'`). -/
inductive Color where
  | w
  | b
deriving DecidableEq

/-- Opponent color. -/
def Color.flip : Color → Color
  | w => b
  | b => w

/-- Piece kinds in chess.js letters. -/
inductive PieceT where
  | p | n | b | r | q | k
deriving DecidableEq

/-- chess.js verbose-move flags used by the engine. -/
inductive Flag where
  | normal | capture | bigPawn | epCapture | promotion
  | ksideCastle | qsideCastle
deriving DecidableEq

/-- A chess.js verbose move record; `before` is the pre-move position
(reconstructed by `new Chess(lastMove.before)` in `checkCapture`). -/
structure MoveRec (Board : Type) where
  fromSq : Square
  toSq : Square
  piece : PieceT
  color : Color
  flags : List Flag
  before : Board

/-- The chess.js operations the engine calls, over an abstract board
type with value semantics.  `snapshot` models `new Chess(b.fen())` (a
copy that drops history), `applyMove` models `.move(m)`. -/
structure ChessApi (Board : Type) where
  initial : Board
  moves : Board → List (MoveRec Board)
  applyMove : Board → MoveRec Board → Board
  snapshot : Board → Board
  turn : Board → Color
  inCheck : Board → Bool
  isCheckmate : Board → Bool
  isDraw : Board → Bool
  isStalemate : Board → Bool
  isThreefoldRepetition : Board → Bool
  isGameOver : Board → Bool
  get : Board → Square → Option (Color × PieceT)
  history : Board → List (MoveRec Board)

variable {Board : Type}

/-- `ChessHelpers.getLastMove`: last element of `board.history`. -/
def getLastMove (api : ChessApi Board) (b : Board) : Option (MoveRec Board) :=
  (api.history b).getLast?

/-- `ChessHelpers.hasPiece`. -/
def hasPiece (api : ChessApi Board) (b : Board) (sq : Square) : Bool :=
  (api.get b sq).isSome

/-- `ChessHelpers.isPieceColor`. -/
def isPieceColor (api : ChessApi Board) (b : Board) (sq : Square) (c : Color) : Bool :=
  match api.get b sq with
  | some (pc, _) => pc = c
  | none => false

/-- `ChessHelpers.isPieceType`. -/
def isPieceType (api : ChessApi Board) (b : Board) (sq : Square) (t : PieceT) : Bool :=
  match api.get b sq with
  | some (_, pt) => pt = t
  | none => false

/-- `ChessHelpers.isDraw`: draw, stalemate or threefold repetition. -/
def isDrawH (api : ChessApi Board) (b : Board) : Bool :=
  api.isDraw b || api.isStalemate b || api.isThreefoldRepetition b

/-- `ChessHelpers.hasCastled`. -/
def hasCastled (api : ChessApi Board) (b : Board) (sq : Square)
    (kingside : Bool) : Bool :=
  if ¬ isPieceType api b sq .k then false
  else
    match getLastMove api b with
    | none => false
    | some mv =>
        if kingside then mv.flags.contains .ksideCastle
        else mv.flags.contains .qsideCastle

/-- `ChessHelpers.checkCapture`: the last move ended on `sq` and was a
capture (ordinary or en passant); with a type filter, the captured piece
on the pre-move board must have that type. -/
def checkCapture (api : ChessApi Board) (b : Board) (sq : Square)
    (ty : Option PieceT) : Bool :=
  match getLastMove api b with
  | none => false
  | some mv =>
      if mv.toSq ≠ sq then false
      else if ¬ (mv.flags.contains .capture || mv.flags.contains .epCapture) then false
      else
        match ty with
        | none => true
        | some t => isPieceType api mv.before sq t

/-- Capture filter of `ChessHelpers.filterMoves`: `isCapturing` is
either `true` (any capture target) or a piece-type letter. -/
inductive CapFilter where
  | anyPiece
  | typed (t : PieceT)

/-- Filter record of `ChessHelpers.filterMoves`. -/
structure MoveFilters where
  toSquare : Option Square := none
  fromSquare : Option Square := none
  ty : Option PieceT := none
  isCapturing : Option CapFilter := none

/-- One move passes the `filterMoves` checks (each `continue` in the
source is a conjunct here; capture detection looks at the piece
currently on the destination square). -/
def moveMatches (api : ChessApi Board) (b : Board) (f : MoveFilters)
    (mv : MoveRec Board) : Bool :=
  (match f.toSquare with | some s => mv.toSq = s | none => true) &&
  (match f.fromSquare with | some s => mv.fromSq = s | none => true) &&
  (match f.ty with | some t => mv.piece = t | none => true) &&
  (match f.isCapturing with
    | none => true
    | some .anyPiece => hasPiece api b mv.toSq
    | some (.typed t) => hasPiece api b mv.toSq && isPieceType api b mv.toSq t)

/-- `ChessHelpers.filterMoves`: count of legal moves of `b` passing the
filters. -/
def filterMoves (api : ChessApi Board) (b : Board) (f : MoveFilters) : Nat :=
  (api.moves b).countP (moveMatches api b f)

/-- Per-turn running totals (`GameTurn['outputs']`). -/
structure Outputs where
  firstIterationPreMoveTotal : JsNum
  firstIterationPostMoveTotal : JsNum
  prevIterationPreMoveTotal : JsNum
  prevIterationPostMoveTotal : JsNum
  thisIterationPreMoveTotal : JsNum
  thisIterationPostMoveTotal : JsNum
deriving DecidableEq

/-- All-zero outputs (initial turn context). -/
def Outputs.zero : Outputs :=
  ⟨.num 0, .num 0, .num 0, .num 0, .num 0, .num 0⟩

/-- An agent (`EngineTypes.Instance`).  The memory bank is the ordered
list of cell values; the cell with id `custom_i` sits at index `i`
(the invariant every instance the engine builds satisfies, and the one
`memory.find` relies on). -/
structure Instance where
  id : Nat
  boardAlgorithm : Token
  movementAlgorithm : Token
  memory : List JsNum

/-- Turn context (`EngineTypes.GameTurn`). -/
structure GameTurn (Board : Type) where
  inst : Instance
  board : Board
  color : Color
  depth : Nat
  outputs : Outputs

/-- The board/color/depth/outputs part of a turn context, as read by the
variable provider while memory is threaded separately. -/
structure EvalCtx (Board : Type) where
  board : Board
  color : Color
  depth : Nat
  outputs : Outputs

/-- Evaluation faults: a failed `memory.find` for `custom_n` (the source
then crashes reading `.value` of `undefined`), a `write` to an index
outside the memory array, and exhausted modelling fuel for the
search recursion (unreachable from the engine's entry points, which
pass enough fuel for the depth cap). -/
inductive ExecErr where
  | unknownVariable (n : Nat)
  | writeOutOfRange (i : Nat)
  | fuelExhausted
deriving DecidableEq

/-- The engine's `populateVariable`, returning the `.value` of the
populated variable.  Custom ids read the memory cell; movement-program
ids read the turn context; the remaining ids are derived from the chess
adapter.  `none` models `memory.find` returning `undefined`. -/
def populateVariable (api : ChessApi Board) (sq : Square) (ctx : EvalCtx Board)
    (mem : List JsNum) : VariableId → Option JsNum
  | .custom n => mem.get? n
  | .provided p =>
    let b := ctx.board
    let selfColor := ctx.color
    let opponentColor := selfColor.flip
    some <| match p with
    | .depth => .num ctx.depth
    | .firstIterationPreMoveTotal => ctx.outputs.firstIterationPreMoveTotal
    | .firstIterationPostMoveTotal => ctx.outputs.firstIterationPostMoveTotal
    | .prevIterationPreMoveTotal => ctx.outputs.prevIterationPreMoveTotal
    | .prevIterationPostMoveTotal => ctx.outputs.prevIterationPostMoveTotal
    | .thisIterationPreMoveTotal => ctx.outputs.thisIterationPreMoveTotal
    | .thisIterationPostMoveTotal => ctx.outputs.thisIterationPostMoveTotal
    | .isSelf => .ofBool (isPieceColor api b sq selfColor)
    | .isOpponent => .ofBool (isPieceColor api b sq opponentColor)
    | .isEmpty => .ofBool (¬ hasPiece api b sq)
    | .isPawn => .ofBool (isPieceType api b sq .p)
    | .isKnight => .ofBool (isPieceType api b sq .n)
    | .isBishop => .ofBool (isPieceType api b sq .b)
    | .isRook => .ofBool (isPieceType api b sq .r)
    | .isQueen => .ofBool (isPieceType api b sq .q)
    | .isKing => .ofBool (isPieceType api b sq .k)
    | .isInCheck => .ofBool (api.inCheck b)
    | .isInCheckmate => .ofBool (api.isCheckmate b)
    | .isDraw => .ofBool (isDrawH api b)
    | .castledKingSide => .ofBool (hasCastled api b sq true)
    | .castledQueenSide => .ofBool (hasCastled api b sq false)
    | .wasCaptured => .ofBool (checkCapture api b sq none)
    | .pawnWasCaptured => .ofBool (checkCapture api b sq (some .p))
    | .knightWasCaptured => .ofBool (checkCapture api b sq (some .n))
    | .bishopWasCaptured => .ofBool (checkCapture api b sq (some .b))
    | .rookWasCaptured => .ofBool (checkCapture api b sq (some .r))
    | .queenWasCaptured => .ofBool (checkCapture api b sq (some .q))
    | .possibleMoves => .num (filterMoves api b { fromSquare := some sq })
    | .canCapture =>
        .num (filterMoves api b { fromSquare := some sq, isCapturing := some .anyPiece })
    | .canCapturePawn =>
        .num (filterMoves api b { fromSquare := some sq, isCapturing := some (.typed .p) })
    | .canCaptureKnight =>
        .num (filterMoves api b { fromSquare := some sq, isCapturing := some (.typed .n) })
    | .canCaptureBishop =>
        .num (filterMoves api b { fromSquare := some sq, isCapturing := some (.typed .b) })
    | .canCaptureRook =>
        .num (filterMoves api b { fromSquare := some sq, isCapturing := some (.typed .r) })
    | .canCaptureQueen =>
        .num (filterMoves api b { fromSquare := some sq, isCapturing := some (.typed .q) })
    | .canMoveHere => .num (filterMoves api b { toSquare := some sq })
    | .pawnCanMoveHere => .num (filterMoves api b { toSquare := some sq, ty := some .p })
    | .knightCanMoveHere => .num (filterMoves api b { toSquare := some sq, ty := some .n })
    | .bishopCanMoveHere => .num (filterMoves api b { toSquare := some sq, ty := some .b })
    | .rookCanMoveHere => .num (filterMoves api b { toSquare := some sq, ty := some .r })
    | .queenCanMoveHere => .num (filterMoves api b { toSquare := some sq, ty := some .q })
    | .kingCanMoveHere => .num (filterMoves api b { toSquare := some sq, ty := some .k })

mutual

/-- The interpreter (`walkToken` inside `execAlgorithm`): strict
left-to-right evaluation threading the agent's memory (mutated by
`write`), with the JS short-circuits of `&&`, `||` and `?:`. -/
def walkToken (jm : JsMath) (api : ChessApi Board) (sq : Square)
    (ctx : EvalCtx Board) :
    Token → List JsNum → Except ExecErr (JsNum × List JsNum)
  | .var id, mem =>
      match populateVariable api sq ctx mem id with
      | some v => .ok (v, mem)
      | none =>
          match id with
          | .custom n => .error (.unknownVariable n)
          | .provided _ => .error (.unknownVariable 0)
  | .add a b, mem => do
      let (x, m1) ← walkToken jm api sq ctx a mem
      let (y, m2) ← walkToken jm api sq ctx b m1
      .ok (JsNum.jsAdd x y, m2)
  | .sub a b, mem => do
      let (x, m1) ← walkToken jm api sq ctx a mem
      let (y, m2) ← walkToken jm api sq ctx b m1
      .ok (JsNum.jsSub x y, m2)
  | .mul a b, mem => do
      let (x, m1) ← walkToken jm api sq ctx a mem
      let (y, m2) ← walkToken jm api sq ctx b m1
      .ok (JsNum.jsMul x y, m2)
  | .div a b, mem => do
      let (x, m1) ← walkToken jm api sq ctx a mem
      let (y, m2) ← walkToken jm api sq ctx b m1
      .ok (JsNum.jsDiv x y, m2)
  | .mod a b, mem => do
      let (x, m1) ← walkToken jm api sq ctx a mem
      let (y, m2) ← walkToken jm api sq ctx b m1
      .ok (JsNum.jsMod x y, m2)
  | .and a b, mem => do
      let (x, m1) ← walkToken jm api sq ctx a mem
      if JsNum.jsBinary x = .num 1 then do
        let (y, m2) ← walkToken jm api sq ctx b m1
        .ok (JsNum.ofBool (JsNum.jsBinary y = .num 1), m2)
      else
        .ok (JsNum.ofBool false, m1)
  | .or a b, mem => do
      let (x, m1) ← walkToken jm api sq ctx a mem
      if JsNum.jsBinary x = .num 1 then
        .ok (JsNum.jsBinary (JsNum.jsBinary x), m1)
      else do
        let (y, m2) ← walkToken jm api sq ctx b m1
        .ok (JsNum.jsBinary (JsNum.jsBinary y), m2)
  | .eq a b, mem => do
      let (x, m1) ← walkToken jm api sq ctx a mem
      let (y, m2) ← walkToken jm api sq ctx b m1
      .ok (JsNum.ofBool (JsNum.jsEqb x y), m2)
  | .neq a b, mem => do
      let (x, m1) ← walkToken jm api sq ctx a mem
      let (y, m2) ← walkToken jm api sq ctx b m1
      .ok (JsNum.ofBool (¬ JsNum.jsEqb x y), m2)
  | .binary v, mem => do
      let (x, m1) ← walkToken jm api sq ctx v mem
      .ok (JsNum.jsBinary x, m1)
  | .invert v, mem => do
      let (x, m1) ← walkToken jm api sq ctx v mem
      .ok (if JsNum.jsBinary x = .num 0 then JsNum.num 1 else JsNum.num 0, m1)
  | .sqrt v, mem => do
      let (x, m1) ← walkToken jm api sq ctx v mem
      .ok (jm.jsSqrt x, m1)
  | .round v, mem => do
      let (x, m1) ← walkToken jm api sq ctx v mem
      .ok (JsNum.jsRound x, m1)
  | .floor v, mem => do
      let (x, m1) ← walkToken jm api sq ctx v mem
      .ok (JsNum.jsFloor x, m1)
  | .ceil v, mem => do
      let (x, m1) ← walkToken jm api sq ctx v mem
      .ok (JsNum.jsCeil x, m1)
  | .abs v, mem => do
      let (x, m1) ← walkToken jm api sq ctx v mem
      .ok (JsNum.jsAbs x, m1)
  | .gt l r, mem => do
      let (x, m1) ← walkToken jm api sq ctx l mem
      let (y, m2) ← walkToken jm api sq ctx r m1
      .ok (JsNum.ofBool (JsNum.jsGtb x y), m2)
  | .gte l r, mem => do
      let (x, m1) ← walkToken jm api sq ctx l mem
      let (y, m2) ← walkToken jm api sq ctx r m1
      .ok (JsNum.ofBool (JsNum.jsGeb x y), m2)
  | .lt l r, mem => do
      let (x, m1) ← walkToken jm api sq ctx l mem
      let (y, m2) ← walkToken jm api sq ctx r m1
      .ok (JsNum.ofBool (JsNum.jsLtb x y), m2)
  | .lte l r, mem => do
      let (x, m1) ← walkToken jm api sq ctx l mem
      let (y, m2) ← walkToken jm api sq ctx r m1
      .ok (JsNum.ofBool (JsNum.jsLeb x y), m2)
  | .min args, mem => do
      let (vs, m1) ← walkTokenList jm api sq ctx args mem
      .ok (vs.foldl JsNum.jsMin2 .posInf, m1)
  | .max args, mem => do
      let (vs, m1) ← walkTokenList jm api sq ctx args mem
      .ok (vs.foldl JsNum.jsMax2 .negInf, m1)
  | .pow base power, mem => do
      let (x, m1) ← walkToken jm api sq ctx base mem
      let (y, m2) ← walkToken jm api sq ctx power m1
      .ok (jm.pow x y, m2)
  | .ifElse c t e, mem => do
      let (x, m1) ← walkToken jm api sq ctx c mem
      if JsNum.jsBinary x = .num 1 then walkToken jm api sq ctx t m1
      else walkToken jm api sq ctx e m1
  | .write i v, mem => do
      let (x, m1) ← walkToken jm api sq ctx v mem
      if i < m1.length then .ok (x, m1.set i x)
      else .error (.writeOutOfRange i)

/-- Evaluation of an argument list (`token.args.map(walkToken)`),
left to right, threading memory. -/
def walkTokenList (jm : JsMath) (api : ChessApi Board) (sq : Square)
    (ctx : EvalCtx Board) :
    List Token → List JsNum → Except ExecErr (List JsNum × List JsNum)
  | [], mem => .ok ([], mem)
  | t :: ts, mem => do
      let (v, m1) ← walkToken jm api sq ctx t mem
      let (vs, m2) ← walkTokenList jm api sq ctx ts m1
      .ok (v :: vs, m2)

end

/-- The engine's `execAlgorithm`: run the root token of an algorithm. -/
def execAlgorithm (jm : JsMath) (api : ChessApi Board) (alg : Token)
    (sq : Square) (ctx : EvalCtx Board) (mem : List JsNum) :
    Except ExecErr (JsNum × List JsNum) :=
  walkToken jm api sq ctx alg mem

/-- The `MAX_MOVEMENT_SEARCH_DEPTH` constant (30). -/
def MAX_MOVEMENT_SEARCH_DEPTH : Nat := 30

/-- The board scan of `playNextTurn` (`EngineUtils.loopBoard` over
`execAlgorithm`): evaluate the board program on each square in order,
accumulating into `thisIterationPostMoveTotal` when `isPost` and into
`thisIterationPreMoveTotal` otherwise, threading the agent's memory and
the turn's shared outputs object. -/
def scanSquares (jm : JsMath) (api : ChessApi Board) (alg : Token)
    (board : Board) (color : Color) (depth : Nat) (isPost : Bool) :
    List Square → List JsNum → Outputs → Except ExecErr (List JsNum × Outputs)
  | [], mem, outs => .ok (mem, outs)
  | sq :: sqs, mem, outs => do
      let (v, mem') ← execAlgorithm jm api alg sq ⟨board, color, depth, outs⟩ mem
      let outs' :=
        if isPost then
          { outs with thisIterationPostMoveTotal :=
              JsNum.jsAdd outs.thisIterationPostMoveTotal v }
        else
          { outs with thisIterationPreMoveTotal :=
              JsNum.jsAdd outs.thisIterationPreMoveTotal v }
      scanSquares jm api alg board color depth isPost sqs mem' outs'

/-- A candidate pushed onto `scoredMoves`: the move, its score, the
post-move hypothetical board, and the memory of the cloned agent at push
time (including mutations a recursive search made to it).  The turn's
`outputs` object is shared across all candidates, so it is not stored
per entry (the source stores a reference to the one object). -/
structure ScoredEntry (Board : Type) where
  move : MoveRec Board
  score : JsNum
  board : Board
  mem : List JsNum

/-- The result of `playNextTurn` for one chosen candidate. -/
structure TurnResult (Board : Type) where
  score : JsNum
  nextTurn : GameTurn Board
  move : MoveRec Board

mutual

/-- The engine's `playNextTurn`.  `live` is the enclosing game's `chess`
object: legal moves and post-move hypothetical boards always come from
it, at every recursion depth, while the pre-move scan reads
`lastTurn.board`.  Returns the chosen candidate (or `none` when
`scoredMoves` is empty) together with the memory of `lastTurn.inst`
after the pre-move scan (the in-place mutation a recursive call makes
visible to its caller).  `fuel` only makes the recursion structurally
terminating; the engine's entry point passes enough for the depth cap. -/
def playNextTurn (jm : JsMath) (api : ChessApi Board) (fuel : Nat)
    (live : Board) (lastTurn : GameTurn Board) :
    Except ExecErr (Option (TurnResult Board) × List JsNum) :=
  match fuel with
  | 0 => .error .fuelExhausted
  | fuel + 1 => do
    let d := lastTurn.depth + 1
    let outs0 : Outputs :=
      { lastTurn.outputs with
        prevIterationPreMoveTotal := lastTurn.outputs.thisIterationPreMoveTotal
        prevIterationPostMoveTotal := lastTurn.outputs.thisIterationPostMoveTotal
        thisIterationPreMoveTotal := .num 0
        thisIterationPostMoveTotal := .num 0 }
    let (mem1, outs1) ←
      scanSquares jm api lastTurn.inst.boardAlgorithm lastTurn.board
        lastTurn.color d false allSquares lastTurn.inst.memory outs0
    let outs2 :=
      if lastTurn.depth = 0 then
        { outs1 with firstIterationPreMoveTotal := outs1.thisIterationPreMoveTotal }
      else outs1
    let (outsF, entries) ←
      scoreMoves jm api fuel live lastTurn.color lastTurn.depth lastTurn.inst
        mem1 (api.moves live) outs2
    match entries with
    | [] => .ok (none, mem1)
    | e0 :: _ =>
        let best := entries.foldl
          (fun best e => if JsNum.jsGtb e.score best.score then e else best) e0
        let nextTurn : GameTurn Board :=
          { inst := { lastTurn.inst with memory := best.mem }
            board := best.board
            color := lastTurn.color.flip
            depth := d
            outputs := outsF }
        .ok (some ⟨best.score, nextTurn, best.move⟩, mem1)
termination_by (fuel, 0)

/-- The legal-move loop of `playNextTurn`: for each move, build the
post-move board from the live position, run the post-move scan, run the
movement program at `a1`, and score the candidate: a nonzero movement
output is the score; a zero output below the search-depth cap recurses
(falling back to the zero output when the recursion returns no move);
a zero output at the cap drops the candidate. -/
def scoreMoves (jm : JsMath) (api : ChessApi Board) (fuel : Nat)
    (live : Board) (lastColor : Color) (lastDepth : Nat) (inst : Instance)
    (preMem : List JsNum) (moves : List (MoveRec Board)) (outs : Outputs) :
    Except ExecErr (Outputs × List (ScoredEntry Board)) :=
  match moves, outs with
  | [], outs => .ok (outs, [])
  | mv :: rest, outs => do
      let postBoard := api.applyMove (api.snapshot live) mv
      let d := lastDepth + 1
      let (mem2, outsA) ←
        scanSquares jm api inst.boardAlgorithm postBoard lastColor.flip d true
          allSquares preMem outs
      let outsB :=
        if lastDepth = 0 then
          { outsA with firstIterationPostMoveTotal := outsA.thisIterationPostMoveTotal }
        else outsA
      let (m, mem3) ←
        execAlgorithm jm api inst.movementAlgorithm squareA1
          ⟨postBoard, lastColor.flip, d, outsB⟩ mem2
      if m = .num 0 then
        if d < MAX_MOVEMENT_SEARCH_DEPTH then do
          let postTurn : GameTurn Board :=
            { inst := { inst with memory := mem3 }
              board := postBoard
              color := lastColor.flip
              depth := d
              outputs := outsB }
          let (future, mem4) ← playNextTurn jm api fuel live postTurn
          let entry : ScoredEntry Board :=
            match future with
            | some f => ⟨mv, f.score, postBoard, mem4⟩
            | none => ⟨mv, m, postBoard, mem4⟩
          let (outsC, restEntries) ←
            scoreMoves jm api fuel live lastColor lastDepth inst preMem rest outsB
          .ok (outsC, entry :: restEntries)
        else
          scoreMoves jm api fuel live lastColor lastDepth inst preMem rest outsB
      else do
        let (outsC, restEntries) ←
          scoreMoves jm api fuel live lastColor lastDepth inst preMem rest outsB
        .ok (outsC, ⟨mv, m, postBoard, mem3⟩ :: restEntries)
termination_by (fuel, moves.length + 1)

end

/-- The `FITNESS_SCORES` table. -/
def FITNESS_SCORES_CHECKMATED_THEM : Int := 50
def FITNESS_SCORES_WAS_CHECKMATED : Int := -10
def FITNESS_SCORES_TIMEOUT : Int := -20
def FITNESS_SCORES_FAIL_TO_PICK : Int := -20
def FITNESS_SCORES_TURN_PLAYED : Int := 1
def FITNESS_SCORES_CAPTURED_PIECE : Int := 2
def FITNESS_SCORES_LOST_PIECE : Int := -1
def FITNESS_SCORES_CHECKED_THEM : Int := 3
def FITNESS_SCORES_WAS_CHECKED : Int := -1
def FITNESS_SCORES_FORCED_DRAW : Int := 5
def FITNESS_SCORES_WAS_DRAWN : Int := -1

/-- Game state of `compareInstances`: the live board, the two agents in
shuffled order (`instW` plays white), the stored last turn context per
color (`none` models the initial entries, whose `board` field aliases
the live `chess` object), the two fitness scores, and the
`hasCancelled` flag set by `endGame`. -/
structure GameState (Board : Type) where
  live : Board
  instW : Instance
  instB : Instance
  lastW : Option (GameTurn Board)
  lastB : Option (GameTurn Board)
  fitW : Int
  fitB : Int
  cancelled : Bool

/-- Fitness score of a color. -/
def GameState.fit (st : GameState Board) : Color → Int
  | .w => st.fitW
  | .b => st.fitB

/-- The stored last turn of a color; the initial entry reads the live
board (the source stores a reference to the live `chess` object) with
depth 0 and zero outputs. -/
def GameState.lastTurnOf (st : GameState Board) : Color → GameTurn Board
  | .w => match st.lastW with
      | some t => t
      | none => ⟨st.instW, st.live, .w, 0, Outputs.zero⟩
  | .b => match st.lastB with
      | some t => t
      | none => ⟨st.instB, st.live, .b, 0, Outputs.zero⟩

/-- Store a new last turn for a color. -/
def GameState.setLastTurn (st : GameState Board) (c : Color)
    (t : GameTurn Board) : GameState Board :=
  match c with
  | .w => { st with lastW := some t }
  | .b => { st with lastB := some t }

/-- The `updateFitnessScore` closure: a no-op once the game has been
cancelled. -/
def GameState.addFit (st : GameState Board) (c : Color) (s : Int) :
    GameState Board :=
  if st.cancelled then st
  else match c with
    | .w => { st with fitW := st.fitW + s }
    | .b => { st with fitB := st.fitB + s }

/-- The `endGame` closure: resolve the result and freeze the state. -/
def GameState.endGame (st : GameState Board) : GameState Board :=
  { st with cancelled := true }

/-- Outcome of one iteration of the game loop: `ended` corresponds to
the `break` paths of the source (timeout, no selection, checkmate,
draw), `cont` to a played move that keeps the game going (carrying the
chosen candidate for observability). -/
inductive StepOutcome (Board : Type) where
  | ended (st : GameState Board)
  | cont (st : GameState Board) (r : TurnResult Board)

/-- One iteration of the `while` loop of `compareInstances`.
`timesOut` says whether the `MAX_ALGORITHM_DURATION_MS` deadline fires
during this turn; the deadline callback awards the timeout penalty,
ends the game, and makes `playNextTurn` resolve to `null`, after which
the null-result branch attempts the `FAIL_TO_PICK` penalty (a no-op by
then, since `updateFitnessScore` checks `hasCancelled`). -/
def gameStep (jm : JsMath) (api : ChessApi Board) (timesOut : Bool)
    (st : GameState Board) : Except ExecErr (StepOutcome Board) := do
  let c := api.turn st.live
  let lastTurn := st.lastTurnOf c
  let st1 := st.addFit c FITNESS_SCORES_TURN_PLAYED
  if timesOut then
    let st2 := (st1.addFit c FITNESS_SCORES_TIMEOUT).endGame
    let st3 := (st2.addFit c FITNESS_SCORES_FAIL_TO_PICK).endGame
    .ok (.ended st3)
  else do
    let (res, _) ← playNextTurn jm api 31 st1.live lastTurn
    match res with
    | none => .ok (.ended (st1.addFit c FITNESS_SCORES_FAIL_TO_PICK).endGame)
    | some r =>
        let st2 := st1.setLastTurn c r.nextTurn
        let live2 := api.applyMove st2.live r.move
        let st3 := { st2 with live := live2 }
        let st4 :=
          if checkCapture api live2 r.move.toSq none then
            (st3.addFit c FITNESS_SCORES_CAPTURED_PIECE).addFit c.flip
              FITNESS_SCORES_LOST_PIECE
          else st3
        if api.isCheckmate live2 then
          .ok (.ended ((st4.addFit c FITNESS_SCORES_CHECKMATED_THEM).addFit c.flip
            FITNESS_SCORES_WAS_CHECKMATED).endGame)
        else if isDrawH api live2 then
          .ok (.ended ((st4.addFit c FITNESS_SCORES_FORCED_DRAW).addFit c.flip
            FITNESS_SCORES_WAS_DRAWN).endGame)
        else if api.inCheck live2 then
          .ok (.cont ((st4.addFit c FITNESS_SCORES_CHECKED_THEM).addFit c.flip
            FITNESS_SCORES_WAS_CHECKED) r)
        else
          .ok (.cont st4 r)

/-- The `while (!chess.isGameOver() || !hasCancelled)` loop of
`compareInstances` (the source's condition, inversion included), with
the timeout schedule saying which turn index the per-turn deadline
fires on.  `fuel` makes the loop structurally terminating. -/
def gameLoop (jm : JsMath) (api : ChessApi Board) (schedule : Nat → Bool) :
    Nat → Nat → GameState Board → Except ExecErr (GameState Board)
  | 0, _, _ => .error .fuelExhausted
  | fuel + 1, k, st =>
      if ¬ api.isGameOver st.live ∨ ¬ st.cancelled then do
        match ← gameStep jm api (schedule k) st with
        | .ended st' => .ok st'.endGame
        | .cont st' _ => gameLoop jm api schedule fuel (k + 1) st'
      else
        .ok st.endGame

/-- The fitness vector `compareInstances` resolves with: instance id and
final score per color. -/
structure EvaluationResult where
  idW : Nat
  idB : Nat
  fitW : Int
  fitB : Int
deriving DecidableEq

/-- The engine's `compareInstances`: shuffle the two agents (`flipOrder`
models the coin flip), play the game from the initial position, and
resolve the fitness vector.  Exceptions raised while evaluating a
program are not caught anywhere in the source and propagate to the
caller as `Except.error`. -/
def compareInstances (jm : JsMath) (api : ChessApi Board) (flipOrder : Bool)
    (i1 i2 : Instance) (schedule : Nat → Bool) (fuel : Nat) :
    Except ExecErr EvaluationResult := do
  let (o0, o1) := if flipOrder then (i2, i1) else (i1, i2)
  let st0 : GameState Board :=
    { live := api.initial, instW := o0, instB := o1, lastW := none,
      lastB := none, fitW := 0, fitB := 0, cancelled := false }
  let stF ← gameLoop jm api schedule fuel 0 st0
  .ok ⟨o0.id, o1.id, stF.fitW, stF.fitB⟩

/-- The `MAX_TOKEN_DEPTH_PER_ITERATION` constant (3). -/
def MAX_TOKEN_DEPTH_PER_ITERATION : Nat := 3

/-- Memory geometry constants. -/
def STATIC_MEMORY_SIZE : Nat := 36
def DYNAMIC_MEMORY_SIZE : Nat := 24
def MEMORY_SIZE : Nat := STATIC_MEMORY_SIZE + DYNAMIC_MEMORY_SIZE

/-- The `BOARD_ALGORITHM_VARIABLE_IDS` pool of `constants.ts`, in
source order.  Note it contains no `custom_*` id. -/
def BOARD_ALGORITHM_VARIABLE_IDS : List VariableId :=
  [.provided .isSelf, .provided .isOpponent, .provided .isEmpty,
   .provided .isPawn, .provided .isKnight, .provided .isBishop,
   .provided .isRook, .provided .isQueen, .provided .isKing,
   .provided .isInCheck, .provided .isInCheckmate, .provided .isDraw,
   .provided .castledKingSide, .provided .castledQueenSide,
   .provided .wasCaptured, .provided .pawnWasCaptured,
   .provided .knightWasCaptured, .provided .bishopWasCaptured,
   .provided .rookWasCaptured, .provided .queenWasCaptured,
   .provided .possibleMoves, .provided .canCapture,
   .provided .canCapturePawn, .provided .canCaptureKnight,
   .provided .canCaptureBishop, .provided .canCaptureRook,
   .provided .canCaptureQueen, .provided .canMoveHere,
   .provided .pawnCanMoveHere, .provided .knightCanMoveHere,
   .provided .bishopCanMoveHere, .provided .rookCanMoveHere,
   .provided .queenCanMoveHere, .provided .kingCanMoveHere]

/-- The `MOVEMENT_ALGORITHM_VARIABLE_IDS` pool of `constants.ts`.
Note it contains no `custom_*` id. -/
def MOVEMENT_ALGORITHM_VARIABLE_IDS : List VariableId :=
  [.provided .isInCheck, .provided .isInCheckmate, .provided .isDraw,
   .provided .depth,
   .provided .firstIterationPreMoveTotal,
   .provided .firstIterationPostMoveTotal,
   .provided .prevIterationPreMoveTotal,
   .provided .prevIterationPostMoveTotal,
   .provided .thisIterationPreMoveTotal,
   .provided .thisIterationPostMoveTotal]

/-- The `FUNCTION_TOKEN_IDS` list of `constants.ts`, in source order. -/
def FUNCTION_TOKEN_IDS : List FunctionId :=
  [.add, .sub, .mul, .div, .sqrt, .mod, .pow, .round, .floor, .ceil,
   .min, .max, .abs, .eq, .neq, .gt, .gte, .lt, .lte, .binary, .invert,
   .and, .or, .ifElse, .write]

/-- Program kind (`ChessAlgorithm['type']`). -/
inductive AlgType where
  | board
  | movement
deriving DecidableEq

/-- Random decisions consumed by `generateRandomToken`, as oracle
streams: `floats` models `random(0, 1, true)` (a value in `[0, 1)`),
`ints` models the integer `random(lo, hi, false)` draws (reduced into
range), and `lens` models the Box-Muller `min`/`max` arity draw
(reduced into `[2, 8]`).  Lodash and the Box-Muller helper derive these
decisions from `Math.random()` by floating-point arithmetic that is
external to the engine. -/
structure GenDraws where
  floats : Nat → ℚ
  ints : Nat → Nat
  lens : Nat → Nat

/-- Next unread index of each stream. -/
structure GenState where
  nf : Nat
  ni : Nat
  nl : Nat
deriving DecidableEq

/-- Option sequencing used by the generator model (explicit so that its
equations stay stable under the equation compiler). -/
def obind {α β : Type} : Option α → (α → Option β) → Option β
  | none, _ => none
  | some a, f => f a

@[simp]
theorem obind_none {α β : Type} (f : α → Option β) : obind none f = none := rfl

@[simp]
theorem obind_some {α β : Type} (a : α) (f : α → Option β) :
    obind (some a) f = f a := rfl

theorem obind_eq_some {α β : Type} {x : Option α} {f : α → Option β}
    {b : β} : obind x f = some b ↔ ∃ a, x = some a ∧ f a = some b := by
  cases x <;> simp

/-- The `functionBias` of `generateRandomToken`: `1` at the root, `0`
once `iterationCount` reaches `MAX_TOKEN_DEPTH_PER_ITERATION` (3),
`0.4` under a function parent and `0.6` under a variable parent. -/
def functionBias (parent : Option (FunctionId ⊕ VariableId))
    (iter : Nat) : ℚ :=
  match parent with
  | none => 1
  | some p =>
      if MAX_TOKEN_DEPTH_PER_ITERATION ≤ iter then 0
      else match p with
        | .inl _ => 2 / 5
        | .inr _ => 3 / 5

/-- The `variablePool` of `generateRandomToken`. -/
def variablePool : AlgType → List VariableId
  | .board => BOARD_ALGORITHM_VARIABLE_IDS
  | .movement => MOVEMENT_ALGORITHM_VARIABLE_IDS

mutual

/-- The engine's `generateRandomToken`.  The draw `u ≤ functionBias`
picks a function id uniformly from `FUNCTION_TOKEN_IDS`, otherwise a
variable id uniformly from the pool of the program kind.  `fuel` makes
the recursion total: the source recursion terminates only for draw
sequences that eventually fall below the bias on every branch. -/
def generateRandomToken (σ : GenDraws) (fuel : Nat)
    (parent : Option (FunctionId ⊕ VariableId)) (ty : AlgType)
    (iter : Nat) (st : GenState) : Option (Token × GenState) :=
  match fuel with
  | 0 => none
  | fuel + 1 =>
    let u := σ.floats st.nf
    let st1 : GenState := { st with nf := st.nf + 1 }
    if u ≤ functionBias parent iter then
      let fn := FUNCTION_TOKEN_IDS.getD (σ.ints st1.ni % FUNCTION_TOKEN_IDS.length) .add
      let st2 : GenState := { st1 with ni := st1.ni + 1 }
      let sub := fun s => generateRandomToken σ fuel (some (.inl fn)) ty (iter + 1) s
      match fn with
      | .add =>
          obind (sub st2) fun (a, s1) =>
          obind (sub s1) fun (b, s2) =>
          some (.add a b, s2)
      | .sub =>
          obind (sub st2) fun (a, s1) =>
          obind (sub s1) fun (b, s2) =>
          some (.sub a b, s2)
      | .mul =>
          obind (sub st2) fun (a, s1) =>
          obind (sub s1) fun (b, s2) =>
          some (.mul a b, s2)
      | .div =>
          obind (sub st2) fun (a, s1) =>
          obind (sub s1) fun (b, s2) =>
          some (.div a b, s2)
      | .mod =>
          obind (sub st2) fun (a, s1) =>
          obind (sub s1) fun (b, s2) =>
          some (.mod a b, s2)
      | .eq =>
          obind (sub st2) fun (a, s1) =>
          obind (sub s1) fun (b, s2) =>
          some (.eq a b, s2)
      | .neq =>
          obind (sub st2) fun (a, s1) =>
          obind (sub s1) fun (b, s2) =>
          some (.neq a b, s2)
      | .and =>
          obind (sub st2) fun (a, s1) =>
          obind (sub s1) fun (b, s2) =>
          some (.and a b, s2)
      | .or =>
          obind (sub st2) fun (a, s1) =>
          obind (sub s1) fun (b, s2) =>
          some (.or a b, s2)
      | .binary =>
          obind (sub st2) fun (a, s1) => some (.binary a, s1)
      | .invert =>
          obind (sub st2) fun (a, s1) => some (.invert a, s1)
      | .sqrt =>
          obind (sub st2) fun (a, s1) => some (.sqrt a, s1)
      | .round =>
          obind (sub st2) fun (a, s1) => some (.round a, s1)
      | .floor =>
          obind (sub st2) fun (a, s1) => some (.floor a, s1)
      | .ceil =>
          obind (sub st2) fun (a, s1) => some (.ceil a, s1)
      | .abs =>
          obind (sub st2) fun (a, s1) => some (.abs a, s1)
      | .gt =>
          obind (sub st2) fun (a, s1) =>
          obind (sub s1) fun (b, s2) =>
          some (.gt a b, s2)
      | .gte =>
          obind (sub st2) fun (a, s1) =>
          obind (sub s1) fun (b, s2) =>
          some (.gte a b, s2)
      | .lt =>
          obind (sub st2) fun (a, s1) =>
          obind (sub s1) fun (b, s2) =>
          some (.lt a b, s2)
      | .lte =>
          obind (sub st2) fun (a, s1) =>
          obind (sub s1) fun (b, s2) =>
          some (.lte a b, s2)
      | .min =>
          let len := 2 + σ.lens st2.nl % 7
          let st3 : GenState := { st2 with nl := st2.nl + 1 }
          obind (generateRandomTokenList σ fuel (some (.inl fn)) ty (iter + 1) st3 len)
            fun (args, s1) => some (.min args, s1)
      | .max =>
          let len := 2 + σ.lens st2.nl % 7
          let st3 : GenState := { st2 with nl := st2.nl + 1 }
          obind (generateRandomTokenList σ fuel (some (.inl fn)) ty (iter + 1) st3 len)
            fun (args, s1) => some (.max args, s1)
      | .pow =>
          obind (sub st2) fun (a, s1) =>
          obind (sub s1) fun (b, s2) =>
          some (.pow a b, s2)
      | .ifElse =>
          obind (sub st2) fun (a, s1) =>
          obind (sub s1) fun (b, s2) =>
          obind (sub s2) fun (c, s3) =>
          some (.ifElse a b c, s3)
      | .write =>
          let memoryIndex := STATIC_MEMORY_SIZE + σ.ints st2.ni % DYNAMIC_MEMORY_SIZE
          let st3 : GenState := { st2 with ni := st2.ni + 1 }
          obind (generateRandomToken σ fuel (some (.inl fn)) ty (iter + 1) st3)
            fun (a, s1) => some (.write memoryIndex a, s1)
    else
      let pool := variablePool ty
      let vid := pool.getD (σ.ints st1.ni % pool.length) (.provided .isSelf)
      let st2 : GenState := { st1 with ni := st1.ni + 1 }
      some (.var vid, st2)
termination_by (fuel, 0)

/-- A list of `count` subtokens of a `min`/`max` node
(`Array.from({ length }, () => generateSubToken())`). -/
def generateRandomTokenList (σ : GenDraws) (fuel : Nat)
    (parent : Option (FunctionId ⊕ VariableId)) (ty : AlgType)
    (iter : Nat) (st : GenState) (count : Nat) :
    Option (List Token × GenState) :=
  match count with
  | 0 => some ([], st)
  | count + 1 =>
      obind (generateRandomToken σ fuel parent ty iter st) fun (t, s1) =>
      obind (generateRandomTokenList σ fuel parent ty iter s1 count)
        fun (ts, s2) =>
      some (t :: ts, s2)
termination_by (fuel, count + 1)

end

mutual

/-- A tree contains a `custom_*` variable leaf. -/
def Token.hasCustomLeaf : Token → Bool
  | .var (.custom _) => true
  | .var (.provided _) => false
  | .add a b | .sub a b | .mul a b | .div a b | .mod a b
  | .and a b | .or a b | .eq a b | .neq a b
  | .gt a b | .gte a b | .lt a b | .lte a b
  | .pow a b => a.hasCustomLeaf || b.hasCustomLeaf
  | .binary v | .invert v | .sqrt v | .round v | .floor v
  | .ceil v | .abs v => v.hasCustomLeaf
  | .min args | .max args => Token.listHasCustomLeaf args
  | .ifElse c t e => c.hasCustomLeaf || t.hasCustomLeaf || e.hasCustomLeaf
  | .write _ v => v.hasCustomLeaf

/-- Some tree of a list contains a `custom_*` variable leaf. -/
def Token.listHasCustomLeaf : List Token → Bool
  | [] => false
  | t :: ts => t.hasCustomLeaf || Token.listHasCustomLeaf ts

end

mutual

/-- Height of a tree: a leaf has height 0, a function node one more
than its highest child (the length of the longest root-to-leaf path,
counted in edges). -/
def Token.height : Token → Nat
  | .var _ => 0
  | .add a b | .sub a b | .mul a b | .div a b | .mod a b
  | .and a b | .or a b | .eq a b | .neq a b
  | .gt a b | .gte a b | .lt a b | .lte a b
  | .pow a b => 1 + Nat.max a.height b.height
  | .binary v | .invert v | .sqrt v | .round v | .floor v
  | .ceil v | .abs v => 1 + v.height
  | .min args | .max args => 1 + Token.listHeight args
  | .ifElse c t e => 1 + Nat.max c.height (Nat.max t.height e.height)
  | .write _ v => 1 + v.height

/-- Greatest height of a list of trees. -/
def Token.listHeight : List Token → Nat
  | [] => 0
  | t :: ts => Nat.max t.height (Token.listHeight ts)

end

/-- Mutation-record entry for one static-memory edit
(`{ variableName, from, to }`; the custom index stands for the
`custom_i` name). -/
structure MemoryMutation where
  variableName : Nat
  fromVal : JsNum
  toVal : JsNum
deriving DecidableEq

/-- Random decisions of `mutateStaticMemory`: the static index draws
(`random(0, STATIC_MEMORY_SIZE - 1)`, reduced into range), the value
draws (`random(-99, 99)`, clamped into range), and the batch-size draw
(`random(MIN_MUTATION_RATE, MAX_MUTATION_RATE)`, clamped into
`[1, 4]`). -/
structure MemDraws where
  idxs : Nat → Nat
  vals : Nat → Int
  total : Nat

/-- Clamp a value draw into `[-99, 99]`. -/
def clampVal (v : Int) : Int := max (-99) (min 99 v)

/-- The attempt loop of `mutateStaticMemory` (`while (attempts < 1000 &&
mutations.length < total)`).  On a commit the source first assigns the
new value into the cell and only then records `from` by reading the
cell again, so the record's `from` is the freshly written value. -/
def mutateStaticMemoryLoop (σ : MemDraws) (target : Nat) :
    Nat → Nat → List JsNum → List MemoryMutation →
      List JsNum × List MemoryMutation
  | 0, _, mem, muts => (mem, muts)
  | remaining + 1, attempts, mem, muts =>
    if muts.length < target then
      let idx := σ.idxs attempts % STATIC_MEMORY_SIZE
      if (muts.find? fun m => m.variableName = idx).isSome then
        mutateStaticMemoryLoop σ target remaining (attempts + 1) mem muts
      else
        let v : Int := clampVal (σ.vals attempts)
        if mem.getD idx .nan ≠ .num v then
          let mem' := mem.set idx (.num v)
          let entry : MemoryMutation :=
            { variableName := idx, fromVal := mem'.getD idx .nan, toVal := .num v }
          mutateStaticMemoryLoop σ target remaining (attempts + 1) mem'
            (muts ++ [entry])
        else
          mutateStaticMemoryLoop σ target remaining (attempts + 1) mem muts
    else (mem, muts)

/-- The engine's `mutateStaticMemory`: clone the memory and commit up to
`random(1, 4)` edits within 1,000 attempts. -/
def mutateStaticMemory (σ : MemDraws) (inst : Instance) :
    List JsNum × List MemoryMutation :=
  mutateStaticMemoryLoop σ (max 1 (min 4 σ.total)) 1000 0 inst.memory []

/-- `EngineUtils.clearDynamicMemory`: zero the dynamic cells (indices
`STATIC_MEMORY_SIZE` to `MEMORY_SIZE - 1`). -/
def clearDynamicMemory (mem : List JsNum) : List JsNum :=
  mem.mapIdx fun i v =>
    if STATIC_MEMORY_SIZE ≤ i ∧ i < MEMORY_SIZE then .num 0 else v

/-- `EngineUtils.hashInstance`: the content hash covers the two trees
and the memory with dynamic cells zeroed (the instance id is not part
of the hashed content).  The SHA-256 of the external `hash.js` library
is abstracted as `hashFn` over the hashed content. -/
def hashInstance {β : Type} (hashFn : Token × Token × List JsNum → β)
    (inst : Instance) : β :=
  hashFn (inst.boardAlgorithm, inst.movementAlgorithm,
    clearDynamicMemory inst.memory)

/-- Record of one token replacement (`{ path, from, to }`). -/
structure TokenMutation where
  path : String
  fromTok : Token
  toTok : Token

/-- One candidate produced by an attempt of `evolveInstance`: the
results of `mutateAlgorithm` on the two trees and of
`mutateStaticMemory` on the memory.  The mutators are randomized; their
outputs are abstracted as an oracle (their internals are modelled
separately above for the memory mutator). -/
structure MutCandidate where
  boardAlgorithm : Token
  boardTokenMutations : List TokenMutation
  movementAlgorithm : Token
  movementTokenMutations : List TokenMutation
  memory : List JsNum
  memoryMutations : List MemoryMutation

/-- One returned child of `evolveInstance`. -/
structure MutationChild where
  inst : Instance
  tokenMutations : List TokenMutation
  memoryMutations : List MemoryMutation

/-- The result of `evolveInstance` (`EngineTypes.Mutation`). -/
structure Mutation where
  parent : Instance
  children : List MutationChild

/-- The attempt loop of `evolveInstance`: each attempt draws a candidate
from the oracle, hashes it, and accepts it only if the hash is not in
the denylist; accepted children get their dynamic memory zeroed. -/
def evolveLoop {β : Type} [DecidableEq β]
    (hashFn : Token × Token × List JsNum → β)
    (oracle : Nat → MutCandidate) (uuids : Nat → Nat) (loopTarget : Nat) :
    Nat → Nat → List β → List MutationChild → List MutationChild
  | 0, _, _, children => children
  | remaining + 1, attempts, denylist, children =>
    if children.length < loopTarget then
      let cand := oracle attempts
      let childInstance : Instance :=
        ⟨uuids (attempts + 1), cand.boardAlgorithm, cand.movementAlgorithm,
          cand.memory⟩
      let h := hashInstance hashFn childInstance
      if h ∈ denylist then
        evolveLoop hashFn oracle uuids loopTarget remaining (attempts + 1)
          denylist children
      else
        let cleared : Instance :=
          { childInstance with memory := clearDynamicMemory childInstance.memory }
        evolveLoop hashFn oracle uuids loopTarget remaining (attempts + 1)
          (h :: denylist)
          (children ++ [⟨cleared,
            cand.boardTokenMutations ++ cand.movementTokenMutations,
            cand.memoryMutations⟩])
    else children

/-- The engine's `evolveInstance`: child 0 is the parent with dynamic
memory zeroed and a fresh id, then up to `totalOffspring` mutated
children are accepted within `(totalOffspring + 1) * 10` attempts,
deduplicated by content hash against a denylist seeded with the
parent's hash. -/
def evolveInstance {β : Type} [DecidableEq β]
    (hashFn : Token × Token × List JsNum → β)
    (oracle : Nat → MutCandidate) (uuids : Nat → Nat)
    (inst : Instance) (totalOffspring : Nat) : Mutation :=
  let loopTarget := totalOffspring + 1
  let child0 : MutationChild :=
    ⟨{ inst with id := uuids 0, memory := clearDynamicMemory inst.memory },
      [], []⟩
  let denylist := [hashInstance hashFn inst]
  let children :=
    evolveLoop hashFn oracle uuids loopTarget (loopTarget * 10) 0 denylist
      [child0]
  ⟨inst, children⟩

/-- A variable id is a `custom_*` id. -/
def VariableId.isCustom : VariableId → Bool
  | .custom _ => true
  | .provided _ => false

/-- The stored (per-color) last-turn entry of the game state; `none`
for a color that has not completed a turn yet. -/
def GameState.storedTurn (st : GameState Board) : Color → Option (GameTurn Board)
  | .w => st.lastW
  | .b => st.lastB

/-- Trivial chess adapter over a unit board, used for closed concrete
evaluations of the interpreter. -/
def unitApi : ChessApi Unit where
  initial := ()
  moves _ := []
  applyMove _ _ := ()
  snapshot _ := ()
  turn _ := .w
  inCheck _ := false
  isCheckmate _ := false
  isDraw _ := false
  isStalemate _ := false
  isThreefoldRepetition _ := false
  isGameOver _ := false
  get _ _ := none
  history _ := []

/-- A concrete `JsMath` for closed evaluations (never consulted by the
evaluations below). -/
def trivMath : JsMath := ⟨fun _ => 0, fun _ _ => .nan⟩

/-- A unit evaluation context for closed evaluations. -/
def unitCtx : EvalCtx Unit := ⟨(), .w, 1, Outputs.zero⟩

/-- A move record on the unit board. -/
def unitMv : MoveRec Unit := ⟨squareA1, squareA1, .p, .w, [], ()⟩

/-- A unit-board adapter whose every position has exactly one legal
move. -/
def oneMoveApi : ChessApi Unit :=
  { unitApi with moves := fun _ => [unitMv] }

/-- A move record on the counter board `Nat`. -/
def natMv (b : Nat) : MoveRec Nat := ⟨squareA1, squareA1, .p, .w, [], b⟩

/-- A counter-board adapter: a position is the number of moves played,
each position has exactly one legal move, and the side to move
alternates.  Used to demonstrate the stale-board behavior concretely. -/
def natApi : ChessApi Nat where
  initial := 0
  moves b := [natMv b]
  applyMove b _ := b + 1
  snapshot b := b
  turn b := if b % 2 = 0 then .w else .b
  inCheck _ := false
  isCheckmate _ := false
  isDraw _ := false
  isStalemate _ := false
  isThreefoldRepetition _ := false
  isGameOver _ := false
  get _ _ := none
  history _ := []

/-- An agent whose board program reads the (zero) cell `custom_1` and
whose movement program reads cell `custom_0` holding `s`. -/
def leafInstance (s : ℚ) : Instance :=
  ⟨0, .var (.custom 1), .var (.custom 0), [.num s, .num 0]⟩

/-- The initial game state on the counter board with two `leafInstance 5`
agents. -/
def natSt0 : GameState Nat :=
  ⟨0, leafInstance 5, leafInstance 5, none, none, 0, 0, false⟩

/-- The candidate chosen on the first (white) turn of the counter-board
game. -/
def natR1 : TurnResult Nat :=
  ⟨.num 5, ⟨leafInstance 5, 1, .b, 1, Outputs.zero⟩, natMv 0⟩

/-- The game state after the first (white) turn of the counter-board
game. -/
def natStA : GameState Nat :=
  ⟨1, leafInstance 5, leafInstance 5,
    some ⟨leafInstance 5, 1, .b, 1, Outputs.zero⟩, none, 1, 0, false⟩

/-- The candidate chosen on the second (black) turn of the counter-board
game. -/
def natR2 : TurnResult Nat :=
  ⟨.num 5, ⟨leafInstance 5, 2, .w, 1, Outputs.zero⟩, natMv 1⟩

/-- The game state after the second (black) turn of the counter-board
game. -/
def natStB : GameState Nat :=
  ⟨2, leafInstance 5, leafInstance 5,
    some ⟨leafInstance 5, 1, .b, 1, Outputs.zero⟩,
    some ⟨leafInstance 5, 2, .w, 1, Outputs.zero⟩, 1, 1, false⟩

/-! Small reduction lemmas used throughout the proofs. -/

@[simp]
theorem exceptBind_ok {ε α β : Type} (a : α) (f : α → Except ε β) :
    (Except.ok a : Except ε α) >>= f = f a := rfl

@[simp]
theorem exceptBind_error {ε α β : Type} (e : ε) (f : α → Except ε β) :
    (Except.error e : Except ε α) >>= f = .error e := rfl

@[simp]
theorem jsAdd_num_num (a b : ℚ) :
    JsNum.jsAdd (.num a) (.num b) = .num (a + b) := rfl

@[simp]
theorem hasCustomLeaf_var (v : VariableId) :
    (Token.var v).hasCustomLeaf =
      (match v with | .custom _ => true | .provided _ => false) := by
  cases v <;> rfl

/-! Claim C2: division and remainder by zero. -/

/-- C2 (amended): when the second operand of a `div` or `mod` node
evaluates to `0`, the interpreter applies the raw JS operators: `div`
yields `Infinity`, `-Infinity` or `NaN` (never `0`), and `mod` yields
`NaN`. -/
theorem div_mod_by_zero {Board : Type} (jm : JsMath) (api : ChessApi Board)
    (sq : Square) (ctx : EvalCtx Board) (a b : Token) (mem m1 m2 : List JsNum)
    (x : JsNum)
    (ha : walkToken jm api sq ctx a mem = .ok (x, m1))
    (hb : walkToken jm api sq ctx b m1 = .ok (.num 0, m2)) :
    walkToken jm api sq ctx (.div a b) mem = .ok (JsNum.jsDiv x (.num 0), m2)
    ∧ JsNum.jsDiv x (.num 0) ≠ .num 0
    ∧ walkToken jm api sq ctx (.mod a b) mem = .ok (.nan, m2) := by
  refine ⟨by simp [walkToken, ha, hb], ?_, ?_⟩
  · cases x <;> (simp [JsNum.jsDiv]; try (split_ifs <;> simp))
  · have hmod : JsNum.jsMod x (.num 0) = .nan := by
      cases x <;> simp [JsNum.jsMod]
    simp [walkToken, ha, hb, hmod]

/-- C2 counterexample: on operands evaluating to `5` and `0`, a `div`
node evaluates to `Infinity` and a `mod` node to `NaN`; neither is the
`0` the claim requires. -/
theorem div_mod_by_zero_counterexample :
    walkToken trivMath unitApi squareA1 unitCtx
        (.div (.var (.custom 0)) (.var (.custom 1))) [.num 5, .num 0]
      = .ok (.posInf, [.num 5, .num 0])
    ∧ walkToken trivMath unitApi squareA1 unitCtx
        (.mod (.var (.custom 0)) (.var (.custom 1))) [.num 5, .num 0]
      = .ok (.nan, [.num 5, .num 0])
    ∧ (JsNum.posInf ≠ JsNum.num 0 ∧ JsNum.nan ≠ JsNum.num 0) := by
  refine ⟨?_, ?_, by simp, by simp⟩
  all_goals norm_num [walkToken, populateVariable, JsNum.jsDiv, JsNum.jsMod]

/-- C2 witness: the amended statement applied at operands `5` and `0`. -/
theorem div_mod_by_zero_witness :
    walkToken trivMath unitApi squareA1 unitCtx
        (.div (.var (.custom 0)) (.var (.custom 1))) [.num 5, .num 0]
      = .ok (JsNum.jsDiv (.num 5) (.num 0), [.num 5, .num 0])
    ∧ JsNum.jsDiv (.num 5) (.num 0) ≠ .num 0
    ∧ walkToken trivMath unitApi squareA1 unitCtx
        (.mod (.var (.custom 0)) (.var (.custom 1))) [.num 5, .num 0]
      = .ok (.nan, [.num 5, .num 0]) :=
  div_mod_by_zero trivMath unitApi squareA1 unitCtx (.var (.custom 0))
    (.var (.custom 1)) [.num 5, .num 0] [.num 5, .num 0] [.num 5, .num 0]
    (.num 5)
    (by norm_num [walkToken, populateVariable])
    (by norm_num [walkToken, populateVariable])

/-! Claim C3: the `sqrt` node. -/

/-- C3 (amended): a `sqrt` node applies `Math.sqrt` directly, with no
clamp and no floor; on an operand that evaluates to a negative number
the result is `NaN`, not `0`. -/
theorem sqrt_negative_is_nan {Board : Type} (jm : JsMath)
    (api : ChessApi Board) (sq : Square) (ctx : EvalCtx Board) (v : Token)
    (mem m1 : List JsNum) (q : ℚ)
    (hv : walkToken jm api sq ctx v mem = .ok (.num q, m1))
    (hq : q < 0) :
    walkToken jm api sq ctx (.sqrt v) mem = .ok (.nan, m1) := by
  simp [walkToken, hv, JsMath.jsSqrt, hq]

/-- C3 counterexample: on an operand evaluating to `-3`, a `sqrt` node
evaluates to `NaN`, not the claimed `floor(sqrt(max(-3, 0))) = 0`. -/
theorem sqrt_negative_counterexample :
    walkToken trivMath unitApi squareA1 unitCtx
        (.sqrt (.var (.custom 0))) [.num (-3)]
      = .ok (.nan, [.num (-3)])
    ∧ JsNum.nan ≠ JsNum.num 0 := by
  refine ⟨?_, by simp⟩
  norm_num [walkToken, populateVariable, JsMath.jsSqrt]

/-- C3 witness: the amended statement applied at operand `-7`. -/
theorem sqrt_negative_is_nan_witness :
    walkToken trivMath unitApi squareA1 unitCtx
        (.sqrt (.var (.custom 0))) [.num (-7)]
      = .ok (.nan, [.num (-7)]) :=
  sqrt_negative_is_nan trivMath unitApi squareA1 unitCtx _ _ _ (-7)
    (by norm_num [walkToken, populateVariable]) (by norm_num)

/-! Claim C5: fitness attribution of a timed-out turn. -/

/-- C5 (amended): on a turn whose per-turn deadline elapses, the side to
move nets exactly `TURN_PLAYED + TIMEOUT = +1 - 20 = -19` and the
opponent `0`: the `+1` turn-played bonus is awarded at the start of the
turn, before the deadline can fire; the timeout penalty is emitted
exactly once (the subsequent `FAIL_TO_PICK` attempt is suppressed by
the `hasCancelled` guard); the game ends with no move applied. -/
theorem timeout_turn_fitness {Board : Type} (jm : JsMath)
    (api : ChessApi Board) (st : GameState Board)
    (h : st.cancelled = false) :
    ∃ stE, gameStep jm api true st = .ok (.ended stE)
    ∧ stE.fit (api.turn st.live) = st.fit (api.turn st.live)
        + FITNESS_SCORES_TURN_PLAYED + FITNESS_SCORES_TIMEOUT
    ∧ stE.fit (api.turn st.live).flip = st.fit (api.turn st.live).flip
    ∧ stE.live = st.live := by
  rcases hc : api.turn st.live with _ | _ <;>
    cases st <;>
      simp_all [gameStep, GameState.addFit, GameState.endGame, GameState.fit,
        Color.flip, FITNESS_SCORES_TURN_PLAYED, FITNESS_SCORES_TIMEOUT]

/-- C5 counterexample: a concrete timed-out turn attributes a net `-19`
(not the claimed `-20`) to the side to move, because the `+1`
turn-played bonus was already awarded before the deadline fired. -/
theorem timeout_turn_fitness_counterexample :
    ∃ stE, gameStep trivMath unitApi true
        ⟨(), ⟨0, .var (.custom 0), .var (.custom 0), [.num 0]⟩,
          ⟨1, .var (.custom 0), .var (.custom 0), [.num 0]⟩,
          none, none, 0, 0, false⟩ = .ok (.ended stE)
    ∧ stE.fitW = -19 ∧ stE.fitW ≠ -20 ∧ stE.fitB = 0 := by
  refine ⟨⟨(), ⟨0, .var (.custom 0), .var (.custom 0), [.num 0]⟩,
    ⟨1, .var (.custom 0), .var (.custom 0), [.num 0]⟩,
    none, none, -19, 0, true⟩, ?_, by norm_num, by norm_num, by norm_num⟩
  norm_num [gameStep, GameState.addFit, GameState.endGame, unitApi,
    FITNESS_SCORES_TURN_PLAYED, FITNESS_SCORES_TIMEOUT,
    FITNESS_SCORES_FAIL_TO_PICK]

/-- C5 witness: the amended statement applied at a concrete state with
prior mover score `5`, netting `5 + 1 - 20 = -14`. -/
theorem timeout_turn_fitness_witness :
    ∃ stE, gameStep trivMath unitApi true
        ⟨(), ⟨0, .var (.custom 0), .var (.custom 0), [.num 0]⟩,
          ⟨1, .var (.custom 0), .var (.custom 0), [.num 0]⟩,
          none, none, 5, 0, false⟩ = .ok (.ended stE)
    ∧ stE.fit (unitApi.turn ()) = (5 : Int)
        + FITNESS_SCORES_TURN_PLAYED + FITNESS_SCORES_TIMEOUT
    ∧ stE.fit (unitApi.turn ()).flip = 0
    ∧ stE.live = () :=
  timeout_turn_fitness trivMath unitApi _ rfl

/-! Claim C7: the `from`/`to` record of static-memory mutation. -/

/-- Reading back a just-set cell. -/
theorem getD_set_self {α : Type} (l : List α) (i : Nat) (h : i < l.length)
    (x d : α) : (l.set i x).getD i d = x := by
  simp [List.getD, List.getElem?_set_eq_of_lt _ h]

/-- Invariant of the mutation loop: because the source overwrites the
cell before reading `from` back out of it, every record it ever pushes
has `from` equal to `to`. -/
theorem msmLoop_from_eq_to (σ : MemDraws) (target : Nat) :
    ∀ (remaining attempts : Nat) (mem : List JsNum)
      (muts : List MemoryMutation),
      STATIC_MEMORY_SIZE ≤ mem.length →
      (∀ e ∈ muts, e.fromVal = e.toVal) →
      ∀ e ∈ (mutateStaticMemoryLoop σ target remaining attempts mem muts).2,
        e.fromVal = e.toVal := by
  intro remaining
  induction remaining with
  | zero =>
      intro attempts mem muts hlen hmuts e he
      exact hmuts e (by simpa [mutateStaticMemoryLoop] using he)
  | succ remaining ih =>
      intro attempts mem muts hlen hmuts e he
      rw [mutateStaticMemoryLoop] at he
      by_cases h1 : muts.length < target
      · simp only [if_pos h1] at he
        by_cases h2 : ((muts.find? fun m =>
            m.variableName = σ.idxs attempts % STATIC_MEMORY_SIZE).isSome : Prop)
        · simp only [if_pos h2] at he
          exact ih _ _ _ hlen hmuts e he
        · simp only [if_neg h2] at he
          by_cases h3 : mem.getD (σ.idxs attempts % STATIC_MEMORY_SIZE) .nan
              ≠ .num (clampVal (σ.vals attempts))
          · simp only [if_pos h3] at he
            refine ih _ _ _ ?_ ?_ e he
            · simpa using hlen
            · intro e' he'
              rcases List.mem_append.mp he' with h' | h'
              · exact hmuts e' h'
              · have hidx : σ.idxs attempts % STATIC_MEMORY_SIZE < mem.length :=
                  lt_of_lt_of_le
                    (Nat.mod_lt _ (by norm_num [STATIC_MEMORY_SIZE])) hlen
                simp only [List.mem_singleton] at h'
                subst h'
                simp [List.getD, List.getElem?_set_eq_of_lt _ hidx]
          · simp only [if_neg h3] at he
            exact ih _ _ _ hlen hmuts e he
      · simp only [if_neg h1] at he
        exact hmuts e he

/-- C7 (as evaluated on the code): every record `mutateStaticMemory`
returns has its `from` field equal to its `to` field — the cell is
overwritten before `from` is read, so the record never carries the
prior value the claim describes. -/
theorem mutateStaticMemory_from_eq_to (σ : MemDraws) (inst : Instance)
    (hlen : STATIC_MEMORY_SIZE ≤ inst.memory.length) :
    ∀ e ∈ (mutateStaticMemory σ inst).2, e.fromVal = e.toVal := by
  intro e he
  exact msmLoop_from_eq_to σ _ _ _ _ _ hlen (by simp) e he

/-- C7 witness: on a memory whose cell 0 holds `5`, with draws that pick
index 0 and value 7, the single committed record is
`{ variableName: custom_0, from: 7, to: 7 }` — not the
`{ from: 5, to: 7 }` the claim describes — and the theorem applies. -/
theorem mutateStaticMemory_from_eq_to_witness :
    (mutateStaticMemory ⟨fun _ => 0, fun _ => 7, 1⟩
        ⟨0, .var (.custom 0), .var (.custom 0),
          .num 5 :: List.replicate 35 (.num 0)⟩).2
      = [⟨0, .num 7, .num 7⟩]
    ∧ ∀ e ∈ (mutateStaticMemory ⟨fun _ => 0, fun _ => 7, 1⟩
        ⟨0, .var (.custom 0), .var (.custom 0),
          .num 5 :: List.replicate 35 (.num 0)⟩).2,
        e.fromVal = e.toVal := by
  constructor
  · rw [mutateStaticMemory]
    rw [show (1000 : Nat) = 999 + 1 from rfl, mutateStaticMemoryLoop]
    norm_num [clampVal, List.find?, STATIC_MEMORY_SIZE]
    rw [show (999 : Nat) = 998 + 1 from rfl, mutateStaticMemoryLoop]
    norm_num
  · exact mutateStaticMemory_from_eq_to _ _ (by simp [STATIC_MEMORY_SIZE])

/-! Claims C6 and C9: random tree synthesis. -/

@[simp]
theorem hasCustomLeaf_var_isCustom (v : VariableId) :
    (Token.var v).hasCustomLeaf = v.isCustom := by
  cases v <;> rfl

/-- A `getD` pick from a list of non-custom ids with a non-custom
default is non-custom. -/
theorem getD_no_custom (l : List VariableId)
    (hl : ∀ v ∈ l, v.isCustom = false) (k : Nat) (d : VariableId)
    (hd : d.isCustom = false) : (l.getD k d).isCustom = false := by
  rcases h : l[k]? with _ | v
  · simpa [List.getD, h] using hd
  · have hv : v ∈ l := List.getElem?_mem h
    simpa [List.getD, h] using hl v hv

/-- Neither variable pool of `constants.ts` contains a custom id. -/
theorem pool_no_custom (ty : AlgType) :
    ∀ v ∈ variablePool ty, v.isCustom = false := by
  cases ty <;> decide

/-- C6 (as evaluated on the code): whatever the random draws, a token
produced by `generateRandomToken` never contains a `custom_*` variable
leaf — the variable pools it draws from consist of provided ids only,
contradicting the claim that custom ids are part of the pool. -/
theorem generateRandomToken_no_custom :
    ∀ (fuel : Nat) (σ : GenDraws) (parent : Option (FunctionId ⊕ VariableId))
      (ty : AlgType) (iter : Nat) (st : GenState) (t : Token) (st' : GenState),
      generateRandomToken σ fuel parent ty iter st = some (t, st') →
      t.hasCustomLeaf = false := by
  intro fuel
  induction fuel with
  | zero =>
      intro σ parent ty iter st t st' h
      simp [generateRandomToken] at h
  | succ fuel ih =>
      have ihL : ∀ (count : Nat) (σ : GenDraws)
          (parent : Option (FunctionId ⊕ VariableId)) (ty : AlgType)
          (iter : Nat) (st : GenState) (ts : List Token) (st' : GenState),
          generateRandomTokenList σ fuel parent ty iter st count
            = some (ts, st') →
          Token.listHasCustomLeaf ts = false := by
        intro count
        induction count with
        | zero =>
            intro σ parent ty iter st ts st' h
            simp only [generateRandomTokenList, Option.some.injEq,
              Prod.mk.injEq] at h
            obtain ⟨h1, -⟩ := h
            simp [← h1, Token.listHasCustomLeaf]
        | succ count ihc =>
            intro σ parent ty iter st ts st' h
            rw [generateRandomTokenList] at h
            simp only [obind_eq_some, Option.some.injEq, Prod.mk.injEq] at h
            obtain ⟨⟨t1, s1⟩, h1, ⟨ts1, s2⟩, h2, h3, -⟩ := h
            subst h3
            simp [Token.listHasCustomLeaf, ih _ _ _ _ _ _ _ h1,
              ihc _ _ _ _ _ _ _ h2]
      intro σ parent ty iter st t st' h
      simp only [generateRandomToken] at h
      repeat split at h
      all_goals
        simp only [obind_eq_some, Option.some.injEq, Prod.mk.injEq] at h
      all_goals
        first
        | -- variable leaf
          (obtain ⟨h1, -⟩ := h
           subst h1
           simp only [hasCustomLeaf_var_isCustom]
           exact getD_no_custom _ (pool_no_custom ty) _ _ rfl)
        | -- three recursive children
          (obtain ⟨⟨a, s1⟩, h1, ⟨b, s2⟩, h2, ⟨c, s3⟩, h4, h3, -⟩ := h
           subst h3
           simp [Token.hasCustomLeaf, ih _ _ _ _ _ _ _ h1,
             ih _ _ _ _ _ _ _ h2, ih _ _ _ _ _ _ _ h4])
        | -- two recursive children
          (obtain ⟨⟨a, s1⟩, h1, ⟨b, s2⟩, h2, h3, -⟩ := h
           subst h3
           simp [Token.hasCustomLeaf, ih _ _ _ _ _ _ _ h1,
             ih _ _ _ _ _ _ _ h2])
        | -- one recursive child
          (obtain ⟨⟨a, s1⟩, h1, h3, -⟩ := h
           subst h3
           first
           | simp [Token.hasCustomLeaf, ih _ _ _ _ _ _ _ h1]
           | simp [Token.hasCustomLeaf, Token.listHasCustomLeaf,
               ihL _ _ _ _ _ _ _ _ h1])

/-- C6 witness: a concrete synthesis producing
`add(is_self, is_self)`, which indeed has no custom leaf. -/
theorem generateRandomToken_no_custom_witness :
    generateRandomToken ⟨fun _ => 1, fun _ => 0, fun _ => 0⟩ 3 none .board 0
        ⟨0, 0, 0⟩
      = some (.add (.var (.provided .isSelf)) (.var (.provided .isSelf)),
          ⟨3, 3, 0⟩)
    ∧ (Token.add (.var (.provided .isSelf))
        (.var (.provided .isSelf))).hasCustomLeaf = false :=
  ⟨by norm_num [generateRandomToken, functionBias, variablePool,
      MAX_TOKEN_DEPTH_PER_ITERATION, FUNCTION_TOKEN_IDS,
      BOARD_ALGORITHM_VARIABLE_IDS],
   generateRandomToken_no_custom 3 ⟨fun _ => 1, fun _ => 0, fun _ => 0⟩
     none .board 0 ⟨0, 0, 0⟩
     (.add (.var (.provided .isSelf)) (.var (.provided .isSelf))) ⟨3, 3, 0⟩
     (by norm_num [generateRandomToken, functionBias, variablePool,
       MAX_TOKEN_DEPTH_PER_ITERATION, FUNCTION_TOKEN_IDS,
       BOARD_ALGORITHM_VARIABLE_IDS])⟩

/-! Claim C8: offspring uniqueness of `evolveInstance`. -/

/-- Zeroing the dynamic cells is idempotent. -/
theorem clearDynamicMemory_idem (mem : List JsNum) :
    clearDynamicMemory (clearDynamicMemory mem) = clearDynamicMemory mem := by
  apply List.ext_getElem
  · simp [clearDynamicMemory, List.length_mapIdx]
  · intro i h1 h2
    simp only [clearDynamicMemory, List.getElem_mapIdx]
    split <;> rfl

/-- The content hash ignores the id and is invariant under zeroing the
dynamic cells. -/
theorem hashInstance_clearDyn {β : Type}
    (hashFn : Token × Token × List JsNum → β) (inst : Instance) (n : Nat) :
    hashInstance hashFn
        { inst with id := n, memory := clearDynamicMemory inst.memory }
      = hashInstance hashFn inst := by
  simp [hashInstance, clearDynamicMemory_idem]

/-- The hash of an accepted (dynamic-memory-cleared) child equals the
hash computed for its candidate before clearing. -/
theorem hashInstance_cleared_child {β : Type}
    (hashFn : Token × Token × List JsNum → β) (i : Nat) (ba ma : Token)
    (mem : List JsNum) :
    hashInstance hashFn ⟨i, ba, ma, clearDynamicMemory mem⟩
      = hashInstance hashFn ⟨i, ba, ma, mem⟩ := by
  simp [hashInstance, clearDynamicMemory_idem]

/-- The accept loop never drops the head child. -/
theorem evolveLoop_head {β : Type} [DecidableEq β]
    (hashFn : Token × Token × List JsNum → β) (oracle : Nat → MutCandidate)
    (uuids : Nat → Nat) (loopTarget : Nat) :
    ∀ (remaining attempts : Nat) (denylist : List β) (c : MutationChild)
      (cs : List MutationChild),
      (evolveLoop hashFn oracle uuids loopTarget remaining attempts denylist
        (c :: cs)).head? = some c := by
  intro remaining
  induction remaining with
  | zero => intro attempts denylist c cs; simp [evolveLoop]
  | succ remaining ih =>
      intro attempts denylist c cs
      simp only [evolveLoop]
      split
      · split
        · exact ih _ _ c cs
        · rw [List.cons_append]
          exact ih _ _ c _
      · simp

/-- The accept loop preserves distinctness of the children's content
hashes: every accepted hash is recorded in the denylist and a candidate
whose hash is already there is rejected. -/
theorem evolveLoop_nodup {β : Type} [DecidableEq β]
    (hashFn : Token × Token × List JsNum → β) (oracle : Nat → MutCandidate)
    (uuids : Nat → Nat) (loopTarget : Nat) :
    ∀ (remaining attempts : Nat) (denylist : List β)
      (children : List MutationChild),
      (∀ ch ∈ children, hashInstance hashFn ch.inst ∈ denylist) →
      (children.map fun ch => hashInstance hashFn ch.inst).Nodup →
      ((evolveLoop hashFn oracle uuids loopTarget remaining attempts denylist
          children).map fun ch => hashInstance hashFn ch.inst).Nodup := by
  intro remaining
  induction remaining with
  | zero => intro attempts denylist children _ h2; simpa [evolveLoop] using h2
  | succ remaining ih =>
      intro attempts denylist children h1 h2
      simp only [evolveLoop]
      split
      · split
        · exact ih _ _ _ h1 h2
        · rename_i hlt hnot
          refine ih _ _ _ ?_ ?_
          · intro ch hch
            rcases List.mem_append.mp hch with hm | hm
            · exact List.mem_cons_of_mem _ (h1 ch hm)
            · simp only [List.mem_singleton] at hm
              subst hm
              simp only [hashInstance_cleared_child]
              exact List.mem_cons_self _ _
          · rw [List.map_append, List.nodup_append]
            refine ⟨h2, by simp, ?_⟩
            intro x hx hxmem
            rcases List.mem_map.mp hx with ⟨ch, hch, hhx⟩
            simp only [List.map_cons, List.map_nil, List.mem_singleton,
              hashInstance_cleared_child] at hxmem
            apply hnot
            rw [← hxmem, ← hhx]
            exact h1 ch hch
      · simpa using h2

/-- The accept loop never returns more than `loopTarget` children. -/
theorem evolveLoop_length {β : Type} [DecidableEq β]
    (hashFn : Token × Token × List JsNum → β) (oracle : Nat → MutCandidate)
    (uuids : Nat → Nat) (loopTarget : Nat) :
    ∀ (remaining attempts : Nat) (denylist : List β)
      (children : List MutationChild),
      children.length ≤ loopTarget →
      (evolveLoop hashFn oracle uuids loopTarget remaining attempts denylist
        children).length ≤ loopTarget := by
  intro remaining
  induction remaining with
  | zero => intro attempts denylist children h; simpa [evolveLoop] using h
  | succ remaining ih =>
      intro attempts denylist children h
      simp only [evolveLoop]
      split
      · split
        · exact ih _ _ _ h
        · rename_i hlt _
          exact ih _ _ _ (by simpa using hlt)
      · simpa using h

/-- The accept loop consults the oracle only at attempt indices below
`attempts + remaining`. -/
theorem evolveLoop_oracle_ext {β : Type} [DecidableEq β]
    (hashFn : Token × Token × List JsNum → β)
    (oracle oracle₂ : Nat → MutCandidate) (uuids : Nat → Nat)
    (loopTarget : Nat) :
    ∀ (remaining attempts : Nat) (denylist : List β)
      (children : List MutationChild),
      (∀ i, attempts ≤ i → i < attempts + remaining → oracle i = oracle₂ i) →
      evolveLoop hashFn oracle uuids loopTarget remaining attempts denylist
          children
        = evolveLoop hashFn oracle₂ uuids loopTarget remaining attempts
            denylist children := by
  intro remaining
  induction remaining with
  | zero => intro attempts denylist children _; simp [evolveLoop]
  | succ remaining ih =>
      intro attempts denylist children hagree
      have h0 : oracle attempts = oracle₂ attempts :=
        hagree attempts le_rfl (by omega)
      simp only [evolveLoop, h0]
      have hrest : ∀ i, attempts + 1 ≤ i → i < attempts + 1 + remaining →
          oracle i = oracle₂ i := by
        intro i hi1 hi2
        exact hagree i (by omega) (by omega)
      split
      · split
        · exact ih _ _ _ hrest
        · exact ih _ _ _ hrest
      · rfl

/-- C8: `evolve(A, K)` returns children with pairwise-distinct content
hashes (so the hash set has the same size as the returned list); child 0
is the parent with fresh id and dynamic memory zeroed, and its hash
equals the parent's (the hash zeroes dynamic cells and ignores the id);
at most `K + 1` children are returned; and the whole computation reads
the mutation oracle only on the first `10 * (K + 1)` attempt indices. -/
theorem evolveInstance_spec {β : Type} [DecidableEq β]
    (hashFn : Token × Token × List JsNum → β) (oracle : Nat → MutCandidate)
    (uuids : Nat → Nat) (inst : Instance) (K : Nat) :
    ((evolveInstance hashFn oracle uuids inst K).children.map
        fun ch => hashInstance hashFn ch.inst).Nodup
    ∧ (evolveInstance hashFn oracle uuids inst K).children.head?
        = some ⟨({ inst with
            id := uuids 0
            memory := clearDynamicMemory inst.memory } : Instance), [], []⟩
    ∧ hashInstance hashFn
        ({ inst with
            id := uuids 0
            memory := clearDynamicMemory inst.memory } : Instance)
        = hashInstance hashFn inst
    ∧ (evolveInstance hashFn oracle uuids inst K).children.length ≤ K + 1
    ∧ ∀ oracle₂ : Nat → MutCandidate,
        (∀ i, i < (K + 1) * 10 → oracle i = oracle₂ i) →
        evolveInstance hashFn oracle₂ uuids inst K
          = evolveInstance hashFn oracle uuids inst K := by
  refine ⟨?_, ?_, hashInstance_clearDyn hashFn inst (uuids 0), ?_, ?_⟩
  · apply evolveLoop_nodup
    · intro ch hch
      simp only [List.mem_singleton] at hch
      subst hch
      simp only [List.mem_singleton]
      exact hashInstance_clearDyn hashFn inst (uuids 0)
    · simp
  · exact evolveLoop_head hashFn oracle uuids (K + 1) ((K + 1) * 10) 0 _ _ _
  · exact evolveLoop_length hashFn oracle uuids (K + 1) ((K + 1) * 10) 0 _ _
      (by simp)
  · intro oracle₂ hagree
    simp only [evolveInstance]
    exact congrArg (fun c => Mutation.mk inst c)
      (evolveLoop_oracle_ext hashFn oracle₂ oracle uuids (K + 1)
        ((K + 1) * 10) 0 _ _ (fun i _ hi2 => (hagree i (by omega)).symm))

/-- C9 (as evaluated on the code at the failing draw): when the uniform
draw is exactly `0`, the condition `randomValue <= functionBias`
succeeds even with bias `0`, so a call with `iterationCount = 3`
returns a `binary` function node, not a variable leaf; a full synthesis
with such draws yields a tree of height 4 > `MAX_TOKEN_DEPTH_PER_ITERATION`. -/
theorem generateRandomToken_depth_bug :
    generateRandomToken
        ⟨fun k => if k = 0 then 0 else 1 / 2, fun _ => 19, fun _ => 0⟩ 2
        (some (.inl .binary)) .board 3 ⟨0, 0, 0⟩
      = some (.binary (.var (.provided .queenWasCaptured)), ⟨2, 2, 0⟩)
    ∧ generateRandomToken
        ⟨fun k => if k < 4 then 0 else 1 / 2, fun _ => 19, fun _ => 0⟩ 5
        none .board 0 ⟨0, 0, 0⟩
      = some (.binary (.binary (.binary (.binary
          (.var (.provided .queenWasCaptured))))), ⟨5, 5, 0⟩)
    ∧ (Token.binary (.binary (.binary (.binary
        (.var (.provided .queenWasCaptured)))))).height = 4
    ∧ MAX_TOKEN_DEPTH_PER_ITERATION <
        (Token.binary (.binary (.binary (.binary
          (.var (.provided .queenWasCaptured)))))).height := by
  refine ⟨?_, ?_, by simp [Token.height], by simp [Token.height,
    MAX_TOKEN_DEPTH_PER_ITERATION]⟩
  all_goals
    norm_num [generateRandomToken, functionBias, variablePool,
      MAX_TOKEN_DEPTH_PER_ITERATION, FUNCTION_TOKEN_IDS,
      BOARD_ALGORITHM_VARIABLE_IDS]

/-! Claims C1, C4 and C10: the game runner.  The next lemmas evaluate
the board scan for leaf programs and invert `playNextTurn`. -/

/-- Scanning with a board program that reads a zero-valued cell leaves
memory and outputs unchanged (pre-move variant). -/
theorem scanSquares_zero_pre {Board : Type} (jm : JsMath)
    (api : ChessApi Board) (i : Nat) (board : Board) (color : Color)
    (depth : Nat) :
    ∀ (sqs : List Square) (mem : List JsNum) (outs : Outputs) (p : ℚ),
      mem.get? i = some (.num 0) →
      outs.thisIterationPreMoveTotal = .num p →
      scanSquares jm api (.var (.custom i)) board color depth false sqs mem
        outs = .ok (mem, outs) := by
  intro sqs
  induction sqs with
  | nil => intro mem outs p hm hp; simp [scanSquares]
  | cons sq sqs ih =>
      intro mem outs p hm hp
      rw [scanSquares]
      have hw : execAlgorithm jm api (.var (.custom i)) sq
          ⟨board, color, depth, outs⟩ mem = .ok (.num 0, mem) := by
        have hm2 : mem[i]? = some (.num 0) := by
          simpa [List.get?_eq_getElem?] using hm
        simp [execAlgorithm, walkToken, populateVariable, hm2]
      have houts : ({ outs with
          thisIterationPreMoveTotal := JsNum.jsAdd outs.thisIterationPreMoveTotal (.num 0) } : Outputs)
          = outs := by
        cases outs
        simp only at hp
        simp [hp, JsNum.jsAdd]
      simp only [hw, exceptBind_ok, Bool.false_eq_true, if_neg, ite_false]
      simp only [houts]
      exact ih mem outs p hm hp

/-- Scanning with a board program that reads a zero-valued cell leaves
memory and outputs unchanged (post-move variant). -/
theorem scanSquares_zero_post {Board : Type} (jm : JsMath)
    (api : ChessApi Board) (i : Nat) (board : Board) (color : Color)
    (depth : Nat) :
    ∀ (sqs : List Square) (mem : List JsNum) (outs : Outputs) (p : ℚ),
      mem.get? i = some (.num 0) →
      outs.thisIterationPostMoveTotal = .num p →
      scanSquares jm api (.var (.custom i)) board color depth true sqs mem
        outs = .ok (mem, outs) := by
  intro sqs
  induction sqs with
  | nil => intro mem outs p hm hp; simp [scanSquares]
  | cons sq sqs ih =>
      intro mem outs p hm hp
      rw [scanSquares]
      have hw : execAlgorithm jm api (.var (.custom i)) sq
          ⟨board, color, depth, outs⟩ mem = .ok (.num 0, mem) := by
        have hm2 : mem[i]? = some (.num 0) := by
          simpa [List.get?_eq_getElem?] using hm
        simp [execAlgorithm, walkToken, populateVariable, hm2]
      have houts : ({ outs with
          thisIterationPostMoveTotal := JsNum.jsAdd outs.thisIterationPostMoveTotal (.num 0) } : Outputs)
          = outs := by
        cases outs
        simp only at hp
        simp [hp, JsNum.jsAdd]
      simp only [hw, exceptBind_ok, ite_true]
      simp only [houts]
      exact ih mem outs p hm hp

/-- Scanning with a board program that references an unknown memory cell
faults on the first square. -/
theorem scanSquares_unknown {Board : Type} (jm : JsMath)
    (api : ChessApi Board) (n : Nat) (board : Board) (color : Color)
    (depth : Nat) (isPost : Bool) (sq : Square) (sqs : List Square)
    (mem : List JsNum) (outs : Outputs) (hm : mem.get? n = none) :
    scanSquares jm api (.var (.custom n)) board color depth isPost
      (sq :: sqs) mem outs = .error (.unknownVariable n) := by
  have hm2 : mem[n]? = none := by simpa [List.get?_eq_getElem?] using hm
  rw [scanSquares]
  simp [execAlgorithm, walkToken, populateVariable, hm2]

/-- The square list of `loopBoard` is nonempty. -/
theorem allSquares_ne_nil : allSquares ≠ [] := by decide

/-- Evaluation of a full `playNextTurn` for a leaf agent whose movement
program returns the nonzero cell value `s`: the single legal move is
chosen with score `s`, and the stored next-turn context holds the
post-move hypothetical board built from the live position. -/
theorem playNextTurn_leaf {Board : Type} (jm : JsMath) (api : ChessApi Board)
    (fuel : Nat) (live : Board) (lastTurn : GameTurn Board)
    (mv : MoveRec Board) (s : ℚ)
    (hfuel : 1 ≤ fuel)
    (hinst : lastTurn.inst = leafInstance s)
    (houts : lastTurn.outputs = Outputs.zero)
    (hs : s ≠ 0)
    (hmv : api.moves live = [mv]) :
    playNextTurn jm api fuel live lastTurn =
      .ok (some ⟨.num s,
        ⟨leafInstance s, api.applyMove (api.snapshot live) mv,
          lastTurn.color.flip, lastTurn.depth + 1, Outputs.zero⟩, mv⟩,
        [.num s, .num 0]) := by
  rcases fuel with _ | fuel
  · omega
  rw [playNextTurn]
  have houts0 : ({ lastTurn.outputs with
      prevIterationPreMoveTotal := lastTurn.outputs.thisIterationPreMoveTotal
      prevIterationPostMoveTotal := lastTurn.outputs.thisIterationPostMoveTotal
      thisIterationPreMoveTotal := .num 0
      thisIterationPostMoveTotal := .num 0 } : Outputs) = Outputs.zero := by
    rw [houts]; rfl
  rw [houts0, hinst]
  have hscan := scanSquares_zero_pre jm api 1 lastTurn.board lastTurn.color
    (lastTurn.depth + 1) allSquares (leafInstance s).memory Outputs.zero 0
    (by simp [leafInstance]) rfl
  simp only [show (leafInstance s).boardAlgorithm = .var (.custom 1) from rfl]
    at hscan ⊢
  rw [hscan]
  simp only [exceptBind_ok]
  have houts2 : (if lastTurn.depth = 0 then
      { Outputs.zero with
        firstIterationPreMoveTotal := Outputs.zero.thisIterationPreMoveTotal }
      else Outputs.zero) = Outputs.zero := by
    split <;> rfl
  rw [houts2, hmv]
  rw [scoreMoves]
  have hscan2 := scanSquares_zero_post jm api 1
    (api.applyMove (api.snapshot live) mv) lastTurn.color.flip
    (lastTurn.depth + 1) allSquares (leafInstance s).memory Outputs.zero 0
    (by simp [leafInstance]) rfl
  simp only [show (leafInstance s).boardAlgorithm = .var (.custom 1) from rfl]
  rw [hscan2]
  simp only [exceptBind_ok]
  have houts3 : (if lastTurn.depth = 0 then
      { Outputs.zero with
        firstIterationPostMoveTotal := Outputs.zero.thisIterationPostMoveTotal }
      else Outputs.zero) = Outputs.zero := by
    split <;> rfl
  rw [houts3]
  have hmove : execAlgorithm jm api (leafInstance s).movementAlgorithm squareA1
      ⟨api.applyMove (api.snapshot live) mv, lastTurn.color.flip,
        lastTurn.depth + 1, Outputs.zero⟩ (leafInstance s).memory
      = .ok (.num s, (leafInstance s).memory) := by
    simp [execAlgorithm, walkToken, populateVariable, leafInstance]
  rw [hmove]
  simp only [exceptBind_ok]
  have hm0 : (JsNum.num s = JsNum.num 0) = False := by
    simp [hs]
  rw [if_neg (by simp [hs])]
  rw [scoreMoves]
  simp only [exceptBind_ok]
  have hinstEq : ({ leafInstance s with memory := (leafInstance s).memory }
      : Instance) = leafInstance s := rfl
  simp [leafInstance, JsNum.jsGtb, JsNum.jsLtb]

/-- Evaluation of `playNextTurn` at search depth 29 or deeper for a leaf
agent whose movement program returns `0`: the only legal candidate is
dropped (no recursion is allowed at the cap and no fallback score is
recorded), so no move is returned. -/
theorem playNextTurn_drop {Board : Type} (jm : JsMath) (api : ChessApi Board)
    (fuel : Nat) (live : Board) (lastTurn : GameTurn Board)
    (mv : MoveRec Board)
    (hfuel : 1 ≤ fuel)
    (hinst : lastTurn.inst = leafInstance 0)
    (houts : lastTurn.outputs = Outputs.zero)
    (hdepth : 29 ≤ lastTurn.depth)
    (hmv : api.moves live = [mv]) :
    playNextTurn jm api fuel live lastTurn = .ok (none, [.num 0, .num 0]) := by
  rcases fuel with _ | fuel
  · omega
  rw [playNextTurn]
  have houts0 : ({ lastTurn.outputs with
      prevIterationPreMoveTotal := lastTurn.outputs.thisIterationPreMoveTotal
      prevIterationPostMoveTotal := lastTurn.outputs.thisIterationPostMoveTotal
      thisIterationPreMoveTotal := .num 0
      thisIterationPostMoveTotal := .num 0 } : Outputs) = Outputs.zero := by
    rw [houts]; rfl
  rw [houts0, hinst]
  have hscan := scanSquares_zero_pre jm api 1 lastTurn.board lastTurn.color
    (lastTurn.depth + 1) allSquares (leafInstance 0).memory Outputs.zero 0
    (by simp [leafInstance]) rfl
  simp only [show (leafInstance 0).boardAlgorithm = .var (.custom 1) from rfl]
    at hscan ⊢
  rw [hscan]
  simp only [exceptBind_ok]
  have houts2 : (if lastTurn.depth = 0 then
      { Outputs.zero with
        firstIterationPreMoveTotal := Outputs.zero.thisIterationPreMoveTotal }
      else Outputs.zero) = Outputs.zero := by
    split <;> rfl
  rw [houts2, hmv]
  rw [scoreMoves]
  have hscan2 := scanSquares_zero_post jm api 1
    (api.applyMove (api.snapshot live) mv) lastTurn.color.flip
    (lastTurn.depth + 1) allSquares (leafInstance 0).memory Outputs.zero 0
    (by simp [leafInstance]) rfl
  simp only [show (leafInstance 0).boardAlgorithm = .var (.custom 1) from rfl]
  rw [hscan2]
  simp only [exceptBind_ok]
  have houts3 : (if lastTurn.depth = 0 then
      { Outputs.zero with
        firstIterationPostMoveTotal := Outputs.zero.thisIterationPostMoveTotal }
      else Outputs.zero) = Outputs.zero := by
    split <;> rfl
  rw [houts3]
  have hmove : execAlgorithm jm api (leafInstance 0).movementAlgorithm squareA1
      ⟨api.applyMove (api.snapshot live) mv, lastTurn.color.flip,
        lastTurn.depth + 1, Outputs.zero⟩ (leafInstance 0).memory
      = .ok (.num 0, (leafInstance 0).memory) := by
    simp [execAlgorithm, walkToken, populateVariable, leafInstance]
  rw [hmove]
  simp only [exceptBind_ok]
  rw [if_pos trivial]
  rw [if_neg (show ¬(lastTurn.depth + 1 < MAX_MOVEMENT_SEARCH_DEPTH) from by
    simp only [MAX_MOVEMENT_SEARCH_DEPTH]; omega)]
  rw [scoreMoves]
  simp [leafInstance]

/-- A `playNextTurn` whose board program references an unknown memory
cell faults during the pre-move scan and propagates the exception. -/
theorem playNextTurn_unknown {Board : Type} (jm : JsMath)
    (api : ChessApi Board) (fuel : Nat) (live : Board)
    (lastTurn : GameTurn Board) (n : Nat)
    (hfuel : 1 ≤ fuel)
    (halg : lastTurn.inst.boardAlgorithm = .var (.custom n))
    (hmem : lastTurn.inst.memory.get? n = none) :
    playNextTurn jm api fuel live lastTurn = .error (.unknownVariable n) := by
  rcases fuel with _ | fuel
  · omega
  rw [playNextTurn]
  obtain ⟨sq0, rest, hsq⟩ := List.exists_cons_of_ne_nil allSquares_ne_nil
  rw [halg, hsq]
  rw [scanSquares_unknown jm api n lastTurn.board lastTurn.color
    (lastTurn.depth + 1) false sq0 rest lastTurn.inst.memory _ hmem]
  rfl

/-- C1 (as evaluated): the step-5 scoring rule does not hold as stated.
A candidate whose movement output is 0 at the search-depth cap is
dropped from the scored set instead of being scored with m = 0: for an
agent whose movement program returns 0, at stored depth 29 (so the
candidate depth is 30 = MAX_MOVEMENT_SEARCH_DEPTH) `playNextTurn`
returns no chosen move at all even though the legal-move list is
nonempty. -/
theorem playNextTurn_max_depth_drops {Board : Type} (jm : JsMath)
    (api : ChessApi Board) (fuel : Nat) (live : Board)
    (lastTurn : GameTurn Board) (mv : MoveRec Board)
    (hfuel : 1 ≤ fuel)
    (hinst : lastTurn.inst = leafInstance 0)
    (houts : lastTurn.outputs = Outputs.zero)
    (hdepth : 29 ≤ lastTurn.depth)
    (hmv : api.moves live = [mv]) :
    playNextTurn jm api fuel live lastTurn = .ok (none, [.num 0, .num 0]) ∧
    api.moves live ≠ [] := by
  refine ⟨playNextTurn_drop jm api fuel live lastTurn mv hfuel hinst houts
    hdepth hmv, ?_⟩
  rw [hmv]
  simp

/-- Witness for C1: the dropped-candidate behavior at a fully concrete
input. -/
theorem playNextTurn_max_depth_drops_witness :
    playNextTurn trivMath oneMoveApi 31 ()
        ⟨leafInstance 0, (), Color.w, 29, Outputs.zero⟩ =
      .ok (none, [.num 0, .num 0]) ∧
    oneMoveApi.moves () ≠ [] :=
  playNextTurn_max_depth_drops trivMath oneMoveApi 31 ()
    ⟨leafInstance 0, (), Color.w, 29, Outputs.zero⟩ unitMv
    (by omega) rfl rfl (by decide) rfl

/-- Counterexample to C1 as written: at stored depth 30 with exactly one
legal move and a movement program returning 0, `playNextTurn` resolves
with no chosen move, although per the claim the candidate should stay
in the scored set with score m = 0 and a move should be picked. -/
theorem playNextTurn_max_depth_drops_counterexample :
    oneMoveApi.moves () = [unitMv] ∧
    playNextTurn trivMath oneMoveApi 31 ()
        ⟨leafInstance 0, (), Color.w, 30, Outputs.zero⟩ =
      .ok (none, [.num 0, .num 0]) :=
  ⟨rfl, playNextTurn_drop trivMath oneMoveApi 31 ()
    ⟨leafInstance 0, (), Color.w, 30, Outputs.zero⟩ unitMv
    (by omega) rfl rfl (by decide) rfl⟩

/-- `updateFitnessScore` leaves the live board untouched. -/
theorem addFit_live {Board : Type} (st : GameState Board) (c : Color)
    (s : Int) : (st.addFit c s).live = st.live := by
  rw [GameState.addFit.eq_def]
  split
  · rfl
  · cases c <;> rfl

/-- A turn whose agent has a board program referencing an unknown memory
cell makes the whole game step fault: `playNextTurn` throws and nothing
in `compareInstances` catches. -/
theorem gameStep_unknown {Board : Type} (jm : JsMath) (api : ChessApi Board)
    (st : GameState Board) (n : Nat)
    (halg : (st.lastTurnOf (api.turn st.live)).inst.boardAlgorithm =
      .var (.custom n))
    (hmem : (st.lastTurnOf (api.turn st.live)).inst.memory.get? n = none) :
    gameStep jm api false st = .error (.unknownVariable n) := by
  have hpt := playNextTurn_unknown jm api 31 st.live
    (st.lastTurnOf (api.turn st.live)) n (by omega) halg hmem
  simp [gameStep, addFit_live, hpt]

/-- C4 (as evaluated): the game runner does not surface a terminal
fitness vector in all cases.  There is no try/catch anywhere in
`compareInstances`: when the program of the side to move references an
unknown variable id, the structural error propagates out of
`compareInstances` to the caller; no timeout penalty is attributed and
no fitness vector is produced. -/
theorem compareInstances_unknown_variable {Board : Type} (jm : JsMath)
    (api : ChessApi Board) (i1 i2 : Instance) (n : Nat)
    (schedule : Nat → Bool) (fuel : Nat)
    (halg : i1.boardAlgorithm = .var (.custom n))
    (hmem : i1.memory.get? n = none)
    (hturn : api.turn api.initial = .w)
    (hsched : schedule 0 = false)
    (hfuel : 1 ≤ fuel) :
    compareInstances jm api false i1 i2 schedule fuel =
      .error (.unknownVariable n) := by
  rcases fuel with _ | fuel
  · omega
  have hstep : gameStep jm api false
      (⟨api.initial, i1, i2, none, none, 0, 0, false⟩ : GameState Board) =
      .error (.unknownVariable n) := by
    apply gameStep_unknown
    · simp [GameState.lastTurnOf, hturn, halg]
    · simpa [GameState.lastTurnOf, hturn] using hmem
  simp only [compareInstances, Bool.false_eq_true, if_false]
  rw [gameLoop]
  split
  · rw [hsched, hstep]
    rfl
  · rename_i hcond
    exact absurd (Or.inr (by simp)) hcond

/-- Witness for C4: with a white program reading the unknown cell
custom_3 over an empty memory bank, `compareInstances` resolves to the
propagated unknown-variable exception. -/
theorem compareInstances_unknown_variable_witness :
    compareInstances trivMath unitApi false
        ⟨0, .var (.custom 3), .var (.custom 0), []⟩
        ⟨1, .var (.custom 0), .var (.custom 0), []⟩
        (fun _ => false) 2 = .error (.unknownVariable 3) :=
  compareInstances_unknown_variable trivMath unitApi
    ⟨0, .var (.custom 3), .var (.custom 0), []⟩
    ⟨1, .var (.custom 0), .var (.custom 0), []⟩ 3 (fun _ => false) 2
    rfl rfl rfl rfl (by omega)

/-- Counterexample to C4 as written: a concrete game in which the white
board program references the unknown variable id custom_5 makes
`compareInstances` resolve to an error — the exception reaches the
caller and no terminal fitness vector is returned, with no timeout
penalty attributed to the offender. -/
theorem compareInstances_unknown_counterexample :
    compareInstances trivMath unitApi false
        ⟨0, .var (.custom 5), .var (.custom 0), [.num 0]⟩
        ⟨1, .var (.custom 0), .var (.custom 0), [.num 0]⟩
        (fun _ => false) 5 = .error (.unknownVariable 5) := by
  have hstep : gameStep trivMath unitApi false
      (⟨unitApi.initial, ⟨0, .var (.custom 5), .var (.custom 0), [.num 0]⟩,
        ⟨1, .var (.custom 0), .var (.custom 0), [.num 0]⟩,
        none, none, 0, 0, false⟩ : GameState Unit) =
      .error (.unknownVariable 5) := by
    apply gameStep_unknown
    · rfl
    · rfl
  simp only [compareInstances, Bool.false_eq_true, if_false]
  rw [gameLoop]
  split
  · rw [hstep]
    rfl
  · rename_i hcond
    exact absurd (Or.inr (by simp)) hcond

/-- Inversion of a successful `Except` bind. -/
theorem bind_eq_ok {ε α β : Type} {x : Except ε α} {f : α → Except ε β}
    {c : β} (h : (x >>= f) = .ok c) : ∃ a, x = .ok a ∧ f a = .ok c := by
  cases x with
  | ok a => exact ⟨a, rfl, h⟩
  | error e => exact Except.noConfusion h

/-- Flipping a color twice is the identity. -/
theorem Color.flip_flip (c : Color) : c.flip.flip = c := by
  cases c <;> rfl

/-- `updateFitnessScore` leaves both stored turn contexts untouched. -/
theorem addFit_storedTurn {Board : Type} (st : GameState Board)
    (c c' : Color) (s : Int) :
    (st.addFit c s).storedTurn c' = st.storedTurn c' := by
  rw [GameState.addFit.eq_def]
  split
  · rfl
  · cases c <;> cases c' <;> rfl

/-- Recording a turn context does not move the live board. -/
theorem setLastTurn_live {Board : Type} (st : GameState Board) (c : Color)
    (t : GameTurn Board) : (st.setLastTurn c t).live = st.live := by
  cases c <;> rfl

/-- Recording a turn context stores it for that color. -/
theorem setLastTurn_storedTurn_self {Board : Type} (st : GameState Board)
    (c : Color) (t : GameTurn Board) :
    (st.setLastTurn c t).storedTurn c = some t := by
  cases c <;> rfl

/-- Recording a turn context leaves the other color's slot untouched. -/
theorem setLastTurn_storedTurn_flip {Board : Type} (st : GameState Board)
    (c : Color) (t : GameTurn Board) :
    (st.setLastTurn c t).storedTurn c.flip = st.storedTurn c.flip := by
  cases c <;> rfl

/-- Replacing the live board leaves the stored turn contexts untouched. -/
theorem withLive_storedTurn {Board : Type} (st : GameState Board) (l : Board)
    (c : Color) :
    ({ st with live := l } : GameState Board).storedTurn c =
      st.storedTurn c := by
  cases c <;> rfl

/-- A stored turn context is what `lastTurns[color]` resolves to. -/
theorem lastTurnOf_eq_of_stored {Board : Type} (st : GameState Board)
    (c : Color) (t : GameTurn Board) (h : st.storedTurn c = some t) :
    st.lastTurnOf c = t := by
  cases c <;>
    (simp only [GameState.storedTurn] at h
     simp only [GameState.lastTurnOf, h])

/-- The best-so-far fold of the move-selection loop returns either the
seed or a list element. -/
theorem foldl_best_mem {α : Type} (p : α → α → Bool) :
    ∀ (l : List α) (e0 : α),
      l.foldl (fun best e => if p e best then e else best) e0 ∈ e0 :: l := by
  intro l
  induction l with
  | nil => intro e0; simp
  | cons a l ih =>
      intro e0
      rw [List.foldl_cons]
      rcases List.mem_cons.mp (ih (if p a e0 then a else e0)) with h1 | h1
      · rw [h1]
        split
        · exact List.mem_cons_of_mem _ (List.mem_cons_self _ _)
        · exact List.mem_cons_self _ _
      · exact List.mem_cons_of_mem _ (List.mem_cons_of_mem _ h1)

/-- Every entry in the scored set of `scoreMoves` is one of the legal
candidates, and its stored board is the post-move hypothetical board
built from the live position. -/
theorem scoreMoves_entries {Board : Type} (jm : JsMath) (api : ChessApi Board)
    (fuel : Nat) (live : Board) (lastColor : Color) (lastDepth : Nat)
    (inst : Instance) (preMem : List JsNum) :
    ∀ (moves : List (MoveRec Board)) (outs outsF : Outputs)
      (entries : List (ScoredEntry Board)),
      scoreMoves jm api fuel live lastColor lastDepth inst preMem moves outs =
        .ok (outsF, entries) →
      ∀ e ∈ entries, e.move ∈ moves ∧
        e.board = api.applyMove (api.snapshot live) e.move := by
  intro moves
  induction moves with
  | nil =>
      intro outs outsF entries h e he
      rw [scoreMoves] at h
      simp only [Except.ok.injEq, Prod.mk.injEq] at h
      rw [← h.2] at he
      simp at he
  | cons mv rest ih =>
      intro outs outsF entries h e he
      rw [scoreMoves] at h
      obtain ⟨⟨mem2, outsA⟩, hA, h⟩ := bind_eq_ok h
      dsimp only at h
      obtain ⟨⟨m, mem3⟩, hB, h⟩ := bind_eq_ok h
      dsimp only at h
      by_cases hm : m = JsNum.num 0
      · rw [if_pos hm] at h
        by_cases hd : lastDepth + 1 < MAX_MOVEMENT_SEARCH_DEPTH
        · rw [if_pos hd] at h
          obtain ⟨⟨future, mem4⟩, hC, h⟩ := bind_eq_ok h
          dsimp only at h
          obtain ⟨⟨outsC, restE⟩, hD, h⟩ := bind_eq_ok h
          dsimp only at h
          simp only [Except.ok.injEq, Prod.mk.injEq] at h
          rw [← h.2] at he
          rcases List.mem_cons.mp he with rfl | he'
          · cases future <;> exact ⟨List.mem_cons_self _ _, rfl⟩
          · obtain ⟨ha, hb⟩ := ih _ _ _ hD e he'
            exact ⟨List.mem_cons_of_mem _ ha, hb⟩
        · rw [if_neg hd] at h
          obtain ⟨ha, hb⟩ := ih _ _ _ h e he
          exact ⟨List.mem_cons_of_mem _ ha, hb⟩
      · rw [if_neg hm] at h
        obtain ⟨⟨outsC, restE⟩, hD, h⟩ := bind_eq_ok h
        dsimp only at h
        simp only [Except.ok.injEq, Prod.mk.injEq] at h
        rw [← h.2] at he
        rcases List.mem_cons.mp he with rfl | he'
        · exact ⟨List.mem_cons_self _ _, rfl⟩
        · obtain ⟨ha, hb⟩ := ih _ _ _ hD e he'
          exact ⟨List.mem_cons_of_mem _ ha, hb⟩

/-- A chosen candidate of `playNextTurn` is a legal move of the live
position; the stored next-turn context carries the post-move
hypothetical board built from the live position, the flipped color and
the incremented depth. -/
theorem playNextTurn_some {Board : Type} (jm : JsMath) (api : ChessApi Board)
    (fuel : Nat) (live : Board) (lastTurn : GameTurn Board)
    (r : TurnResult Board) (mem : List JsNum)
    (h : playNextTurn jm api fuel live lastTurn = .ok (some r, mem)) :
    r.move ∈ api.moves live ∧
    r.nextTurn.board = api.applyMove (api.snapshot live) r.move ∧
    r.nextTurn.color = lastTurn.color.flip ∧
    r.nextTurn.depth = lastTurn.depth + 1 := by
  rcases fuel with _ | fuel
  · rw [playNextTurn] at h
    exact absurd h (by simp)
  rw [playNextTurn] at h
  obtain ⟨⟨mem1, outs1⟩, hA, h⟩ := bind_eq_ok h
  dsimp only at h
  obtain ⟨⟨outsF, entries⟩, hB, h⟩ := bind_eq_ok h
  dsimp only at h
  rcases entries with _ | ⟨e0, tail⟩
  · exact absurd h (by simp)
  · simp only [Except.ok.injEq, Prod.mk.injEq, Option.some.injEq] at h
    obtain ⟨hr, hmem⟩ := h
    subst hr
    have hbm := foldl_best_mem
      (fun e best => JsNum.jsGtb e.score best.score) (e0 :: tail) e0
    have hbest_mem : (e0 :: tail).foldl
        (fun best e => if JsNum.jsGtb e.score best.score then e else best) e0 ∈
        e0 :: tail := by
      rcases List.mem_cons.mp hbm with h1 | h1
      · rw [h1]; exact List.mem_cons_self _ _
      · exact h1
    obtain ⟨hmv, hbd⟩ := scoreMoves_entries jm api fuel live lastTurn.color
      lastTurn.depth lastTurn.inst mem1 (api.moves live) _ outsF (e0 :: tail)
      hB _ hbest_mem
    exact ⟨hmv, hbd, rfl, rfl⟩

/-- Inversion of a continuing game step: the chosen candidate comes from
a `playNextTurn` run on the live board with the stored turn context of
the side to move, the live board advances by the chosen move, the
next-turn context is stored for the side to move and the opposite slot
is untouched. -/
theorem gameStep_cont {Board : Type} (jm : JsMath) (api : ChessApi Board)
    (st st' : GameState Board) (r : TurnResult Board)
    (h : gameStep jm api false st = .ok (.cont st' r)) :
    (∃ mem, playNextTurn jm api 31 st.live
        (st.lastTurnOf (api.turn st.live)) = .ok (some r, mem)) ∧
    st'.live = api.applyMove st.live r.move ∧
    st'.storedTurn (api.turn st.live) = some r.nextTurn ∧
    st'.storedTurn (api.turn st.live).flip =
      st.storedTurn (api.turn st.live).flip := by
  simp only [gameStep, Bool.false_eq_true, if_false, addFit_live] at h
  obtain ⟨⟨res, mem⟩, hpt, h⟩ := bind_eq_ok h
  dsimp only at h
  rcases res with _ | r'
  · exact absurd h (by simp)
  · dsimp only at h
    repeat' split at h
    any_goals (simp at h; done)
    all_goals
      simp only [Except.ok.injEq, StepOutcome.cont.injEq] at h
      obtain ⟨hst', hr'⟩ := h
      subst hst'
      subst hr'
      refine ⟨⟨mem, hpt⟩, ?_, ?_, ?_⟩
      · simp only [addFit_live, setLastTurn_live]
      · simp only [addFit_storedTurn, withLive_storedTurn,
          setLastTurn_storedTurn_self]
      · simp only [addFit_storedTurn, withLive_storedTurn,
          setLastTurn_storedTurn_flip]

/-- C10: after two successive played turns (one per color), the turn
context stored for the first mover — the context whose `board` field the
next pre-move scan reads — holds the hypothetical board obtained by
applying its own move to a snapshot of the then-live position, without
the opponent reply, while the live board has advanced by both moves;
legal-move generation for each turn drew from the live position. -/
theorem stale_board_invariant {Board : Type} (jm : JsMath)
    (api : ChessApi Board) (st st1 st2 : GameState Board)
    (r1 r2 : TurnResult Board)
    (h1 : gameStep jm api false st = .ok (.cont st1 r1))
    (h2 : gameStep jm api false st1 = .ok (.cont st2 r2))
    (hturn : api.turn st1.live = (api.turn st.live).flip) :
    (st2.lastTurnOf (api.turn st.live)).board =
      api.applyMove (api.snapshot st.live) r1.move ∧
    st2.live = api.applyMove (api.applyMove st.live r1.move) r2.move ∧
    r1.move ∈ api.moves st.live ∧
    r2.move ∈ api.moves st1.live := by
  obtain ⟨⟨mem1, hpt1⟩, hlive1, hself1, hoth1⟩ := gameStep_cont jm api st st1 r1 h1
  obtain ⟨⟨mem2, hpt2⟩, hlive2, hself2, hoth2⟩ := gameStep_cont jm api st1 st2 r2 h2
  obtain ⟨hm1, hb1, _, _⟩ := playNextTurn_some jm api 31 st.live
    (st.lastTurnOf (api.turn st.live)) r1 mem1 hpt1
  obtain ⟨hm2, _, _, _⟩ := playNextTurn_some jm api 31 st1.live
    (st1.lastTurnOf (api.turn st1.live)) r2 mem2 hpt2
  refine ⟨?_, ?_, hm1, hm2⟩
  · have hstored : st2.storedTurn (api.turn st.live) = some r1.nextTurn := by
      rw [hturn, Color.flip_flip] at hoth2
      rw [hoth2, hself1]
    rw [lastTurnOf_eq_of_stored st2 _ _ hstored, hb1]
  · rw [hlive2, hlive1]

/-- Witness for C10: a concrete two-turn run on the counter board.  The
first mover's stored context keeps board 1 (its own hypothetical
position) while the live board has reached 2 after the reply. -/
theorem stale_board_invariant_witness :
    gameStep trivMath natApi false natSt0 = .ok (.cont natStA natR1) ∧
    gameStep trivMath natApi false natStA = .ok (.cont natStB natR2) ∧
    natApi.turn natStA.live = (natApi.turn natSt0.live).flip ∧
    ((natStB.lastTurnOf (natApi.turn natSt0.live)).board =
        natApi.applyMove (natApi.snapshot natSt0.live) natR1.move ∧
      natStB.live = natApi.applyMove
        (natApi.applyMove natSt0.live natR1.move) natR2.move ∧
      natR1.move ∈ natApi.moves natSt0.live ∧
      natR2.move ∈ natApi.moves natStA.live) ∧
    (natStB.lastTurnOf (natApi.turn natSt0.live)).board ≠ natStB.live := by
  have hc : natApi.turn 0 = Color.w := rfl
  have hpt1 : playNextTurn trivMath natApi 31 0
      ⟨leafInstance 5, 0, Color.w, 0, Outputs.zero⟩ =
      .ok (some natR1, [.num 5, .num 0]) := by
    rw [playNextTurn_leaf trivMath natApi 31 0
      ⟨leafInstance 5, 0, Color.w, 0, Outputs.zero⟩ (natMv 0) 5
      (by omega) rfl rfl (by norm_num) rfl]
    rfl
  have h1 : gameStep trivMath natApi false natSt0 = .ok (.cont natStA natR1) := by
    simp [gameStep, natSt0, hc, GameState.addFit, GameState.lastTurnOf]
    rw [hpt1]
    rfl
  have hc2 : natApi.turn 1 = Color.b := rfl
  have hpt2 : playNextTurn trivMath natApi 31 1
      ⟨leafInstance 5, 1, Color.b, 0, Outputs.zero⟩ =
      .ok (some natR2, [.num 5, .num 0]) := by
    rw [playNextTurn_leaf trivMath natApi 31 1
      ⟨leafInstance 5, 1, Color.b, 0, Outputs.zero⟩ (natMv 1) 5
      (by omega) rfl rfl (by norm_num) rfl]
    rfl
  have h2 : gameStep trivMath natApi false natStA = .ok (.cont natStB natR2) := by
    simp [gameStep, natStA, hc2, GameState.addFit, GameState.lastTurnOf]
    rw [hpt2]
    rfl
  exact ⟨h1, h2, rfl,
    stale_board_invariant trivMath natApi natSt0 natStA natStB natR1 natR2
      h1 h2 rfl, by decide⟩

end ChessEvo
